import Mathlib

/-!
Verification of the auto-upload queue coordinator of maca-for-chrome.

The definitions below are a shallow embedding of the per-tab auto-upload
pipeline found in `src/background.js` (the `MACA_AUTO_PROCESS_ATTACHMENT`
message handler and its helper functions `wasRecentlyAutoProcessed`,
`markAutoProcessed`, `unmarkAutoProcessed`, `enqueueAutoUploadJob`,
`enqueueAutoPendingId`, `dequeueAutoPendingId`, `queuePreviewFromTab`,
`getAutoUploadStats`, `sendAutoUploadProgress`,
`autoApplyAttachmentWithRetry`, and the `MACA_AUTO_UPLOAD_CANCEL` /
`PAUSE` / `RESUME` handlers) and of the upload-signal tracker of the
content script (`markUploadSignal`, `hasRecentUploadSignal`,
`countRecentUploadMarked`, `noteAttachmentMeta`,
`maybeAutoProcessUploadedAttachment`).

JavaScript timestamps (`Date.now()`) are modelled as `Nat` milliseconds;
the single-threaded event-loop execution of the promise chain is modelled
by running job bodies and their settlement bookkeeping as atomic steps in
chain order, which is the serialization the chain
`prev.catch(() => {}).then(jobFn)` enforces for the job bodies.
-/

namespace Maca

/-- Response shape of the content script's `applyToAttachment`
(`MACA_APPLY_TO_ATTACHMENT`): which of the three fields were set. -/
structure ApplyResp where
  alt : Bool
  title : Bool
  leyenda : Bool
deriving Repr, DecidableEq

/-- Outcome of one `chrome.tabs.sendMessage` attempt inside
`autoApplyAttachmentWithRetry`: either a response arrived, or the call
threw (modelled by `err`; the JS code then stores `{ok:false, error}`
which has no `applied` field, so the attempt does not count as success). -/
inductive AttemptRes where
  | resp (r : ApplyResp)
  | err
deriving Repr, DecidableEq

/-- `const ok = !!(applied.alt || applied.title || applied.leyenda)`:
an attempt succeeds iff its response reports at least one field set. -/
def attemptOk : AttemptRes → Bool
  | .resp r => r.alt || r.title || r.leyenda
  | .err => false

/-- Return value of `autoApplyAttachmentWithRetry`:
`{ ok, attempts }` (the `response` field is not modelled). -/
structure RetryResult where
  ok : Bool
  attempts : Nat
deriving Repr, DecidableEq

/-- The retry loop of `autoApplyAttachmentWithRetry`, with `i` the index
of the current attempt and the second argument the number of attempts
still allowed (`fuel = attempts - i` throughout).  On success at index
`i` it returns `{ok := true, attempts := i + 1}`; when the fuel is
exhausted (`i` has reached `attempts`) it returns
`{ok := false, attempts := i}` which then equals the `attempts`
parameter, exactly as the JS loop.  The inter-attempt 220 ms delay is
pure timing and has no effect on the result. -/
def retryGo (resp1 : Nat → AttemptRes) : Nat → Nat → RetryResult
  | i, 0 => ⟨false, i⟩
  | i, fuel + 1 =>
    if attemptOk (resp1 i) then ⟨true, i + 1⟩ else retryGo resp1 (i + 1) fuel

/-- `autoApplyAttachmentWithRetry(tabId, payload, { attempts = 10, delayMs = 220 })`:
the auto-upload job invokes it with `attempts: 12`.  `resp1 i` is the
outcome of the `i`-th send attempt. -/
def autoApplyAttachmentWithRetry (resp1 : Nat → AttemptRes) (attempts : Nat := 10) :
    RetryResult :=
  retryGo resp1 0 attempts

/-- The per-tab stats object created by `getAutoUploadStats`:
`{ queued: 0, done: 0, ok: 0, error: 0, startedAt: Date.now(), lastAt: Date.now() }`. -/
structure AutoStats where
  queued : Nat
  done : Nat
  ok : Nat
  error : Nat
  startedAt : Nat
  lastAt : Nat
deriving Repr, DecidableEq

/-- The whole per-tab mutable state of the coordinator: the entries of the
module-level maps `__autoUploadStatsByTab`, `__autoUploadCancelByTab`
(absent entry ≡ `false`), `__autoUploadPausedByTab` (absent ≡ `false`),
`__autoUploadPendingIdsByTab` (absent ≡ `[]`, since `getAutoPendingIds`
recreates an empty list) and `__autoUploadSeenByTab` (a `Map` from
attachment id to last-processed timestamp, modelled as an association
list in insertion order). -/
structure TabState where
  stats : Option AutoStats
  cancelFlag : Bool
  pausedFlag : Bool
  pendingIds : List String
  seen : List (String × Nat)
deriving Repr, DecidableEq

/-- A tab that has never had auto-upload activity: no map has an entry. -/
def TabState.start : TabState :=
  { stats := none, cancelFlag := false, pausedFlag := false, pendingIds := [], seen := [] }

/-- `byTab.get(String(attachmentId))` on the seen registry. -/
def seenLookup (seen : List (String × Nat)) (id : String) : Option Nat :=
  (seen.find? (fun p => p.1 == id)).map (fun p => p.2)

/-- The eviction sweep inside `wasRecentlyAutoProcessed`:
`if (now - Number(ts || 0) > ttlMs) byTab.delete(id)` for every entry. -/
def pruneSeen (now ttl : Nat) (seen : List (String × Nat)) : List (String × Nat) :=
  seen.filter (fun p => now - p.2 ≤ ttl)

/-- `wasRecentlyAutoProcessed(tabId, attachmentId, ttlMs = 5*60*1000)`:
evicts stale entries (a side effect on the registry, returned as the
first component), then reports whether `attachmentId` has a truthy
timestamp within the TTL window. -/
def wasRecentlyAutoProcessed (now : Nat) (seen : List (String × Nat)) (id : String)
    (ttl : Nat := 300000) : List (String × Nat) × Bool :=
  let pruned := pruneSeen now ttl seen
  if id = "" then (pruned, false)
  else
    match seenLookup pruned id with
    | some ts => (pruned, decide (ts ≠ 0) && decide (now - ts ≤ ttl))
    | none => (pruned, false)

/-- `Map.set` semantics: update the existing key in place, else append. -/
def seenSet (seen : List (String × Nat)) (id : String) (ts : Nat) : List (String × Nat) :=
  if seen.any (fun p => p.1 == id) then
    seen.map (fun p => if p.1 == id then (id, ts) else p)
  else seen ++ [(id, ts)]

/-- `markAutoProcessed(tabId, attachmentId)`: no-op for an empty id,
otherwise `byTab.set(String(attachmentId), Date.now())`. -/
def markAutoProcessed (seen : List (String × Nat)) (id : String) (now : Nat) :
    List (String × Nat) :=
  if id = "" then seen else seenSet seen id now

/-- `unmarkAutoProcessed(tabId, attachmentId)`: no-op for an empty id,
otherwise `byTab.delete(String(attachmentId))`. -/
def unmarkAutoProcessed (seen : List (String × Nat)) (id : String) : List (String × Nat) :=
  if id = "" then seen else seen.filter (fun p => p.1 != id)

/-- `enqueueAutoPendingId(tabId, attachmentId)`: skip empty ids, and skip
ids already present (`if (!list.includes(id)) list.push(id)`). -/
def enqueueAutoPendingId (l : List String) (id : String) : List String :=
  if id = "" then l
  else if id ∈ l then l
  else l ++ [id]

/-- `dequeueAutoPendingId(tabId, attachmentId)`: remove the first
occurrence (`indexOf` + `splice(idx, 1)`). -/
def dequeueAutoPendingId (l : List String) (id : String) : List String :=
  if id = "" then l else l.erase id

/-- `queuePreviewFromTab(tabId, maxLen = 8)`:
`list.slice(0, Math.max(1, maxLen | 0))`. -/
def queuePreviewFromTab (l : List String) (maxLen : Nat := 8) : List String :=
  l.take (max 1 maxLen)

/-- `getAutoUploadStats(tabId)`: fetch-or-create the stats entry, then
refresh `lastAt` to now. -/
def getAutoUploadStats (s : Option AutoStats) (now : Nat) : AutoStats :=
  match s with
  | some st => { st with lastAt := now }
  | none => { queued := 0, done := 0, ok := 0, error := 0, startedAt := now, lastAt := now }

/-- The uniform progress message assembled by `sendAutoUploadProgress`:
`{ type: "MACA_AUTO_UPLOAD_PROGRESS", queue: queuePreviewFromTab(tabId),
paused: __autoUploadPausedByTab.get(tabId) === true, ...payload }`.
The payloads of the auto-upload coordinator always carry
`phase`/`queued`/`done`/`ok`/`error`, usually an `attachmentId` (`""`
here when the payload has none) and, for `safety_stop`, `fuseMax`.
Delivery failures are swallowed by the `try/catch` and do not affect
state, so a message is modelled as a pure value. -/
structure ProgressMsg where
  phase : String
  attachmentId : String
  queued : Nat
  done : Nat
  ok : Nat
  error : Nat
  fuseMax : Option Nat
  queue : List String
  paused : Bool
deriving Repr, DecidableEq

/-- `sendAutoUploadProgress(tabId, payload)` as a message constructor. -/
def sendAutoUploadProgress (pendingIds : List String) (pausedFlag : Bool)
    (phase : String) (attachmentId : String) (st : AutoStats)
    (fuseMax : Option Nat := none) : ProgressMsg :=
  { phase := phase, attachmentId := attachmentId,
    queued := st.queued, done := st.done, ok := st.ok, error := st.error,
    fuseMax := fuseMax, queue := queuePreviewFromTab pendingIds, paused := pausedFlag }

/-- Count the events of a given phase in a trace. -/
def countPhase (t : List ProgressMsg) (p : String) : Nat :=
  t.countP (fun e => e.phase == p)

/-- The configuration fields the auto-upload path reads.
`autoUploadSafetyFuseMaxQueued` is `some v` when
`Number.isFinite(Number(cfg.autoUploadSafetyFuseMaxQueued))` holds
(the stored value is an integer) and `none` otherwise. -/
structure AutoCfg where
  wpAutoAnalyzeOnUpload : Bool
  autoUploadSafetyFuseEnabled : Bool
  autoUploadSafetyFuseMaxQueued : Option Int
deriving Repr, DecidableEq

/-- The effective fuse limit:
`Number.isFinite(...) ? Math.max(5, Number(...)) : 24`. -/
def effFuseMax (cfg : AutoCfg) : Nat :=
  match cfg.autoUploadSafetyFuseMaxQueued with
  | some v => (max 5 v).toNat
  | none => 24

/-- How one `MACA_AUTO_PROCESS_ATTACHMENT` message settles, i.e. which
`sendResponse` the handler issues. -/
inductive AdmitResult where
  /-- `!attachmentId || !imageUrl` threw before any gate, so the generic
  error path of the handler's `catch` ran (`markedSeen` still false). -/
  | missingData
  | nonWp
  | disabled
  | cancelledSkip
  | duplicate
  | safetyFuse (fuseMax : Nat)
  | accepted
deriving Repr, DecidableEq

/-- Result of admitting one candidate: the updated tab state, the
response reason, the progress events emitted during admission, and
whether a job was chained onto the tab's queue
(`enqueueAutoUploadJob` was reached). -/
structure AdmitOut where
  state : TabState
  result : AdmitResult
  events : List ProgressMsg
  jobEnqueued : Bool
deriving Repr, DecidableEq

/-- The admission phase of the `MACA_AUTO_PROCESS_ATTACHMENT` handler
(`src/background.js`), up to and including the decision to chain the job.
The sender tab is assumed present (`tabId != null`).  Mirrored checks, in
source order: the missing-data throw (which lands in the generic `catch`:
`done`/`error` increment on the fetched-or-created stats, `error_item`,
and `done_all` when drained — with `markedSeen` false no seen entry is
removed and `dequeueAutoPendingId` of `""` is a no-op); the
`isWpAdminUrl` gate; the `wpAutoAnalyzeOnUpload` gate; the cancel-flag
gate, whose `stale` test compares `Date.now()` against the `lastAt` that
`getAutoUploadStats` has just refreshed and is therefore never true;
the duplicate gate; the safety fuse; and finally the accept path:
`st.queued += 1`, pending enqueue, `queued` event, `markAutoProcessed`,
job chaining. -/
def handleAutoProcessAttachment (cfg : AutoCfg) (isWp : Bool) (s : TabState)
    (now : Nat) (attachmentId imageUrl : String) : AdmitOut :=
  if attachmentId = "" ∨ imageUrl = "" then
    let st0 := getAutoUploadStats s.stats now
    let st1 := { st0 with done := st0.done + 1, error := st0.error + 1 }
    let pend := dequeueAutoPendingId s.pendingIds attachmentId
    let s1 := { s with stats := some st1, pendingIds := pend }
    let e1 := sendAutoUploadProgress s1.pendingIds s1.pausedFlag "error_item" attachmentId st1
    if st1.queued ≤ st1.done then
      let s2 := { s1 with pausedFlag := false, pendingIds := [] }
      let e2 := sendAutoUploadProgress s2.pendingIds s2.pausedFlag "done_all" attachmentId st1
      ⟨s2, .missingData, [e1, e2], false⟩
    else ⟨s1, .missingData, [e1], false⟩
  else if ¬ isWp then ⟨s, .nonWp, [], false⟩
  else if ¬ cfg.wpAutoAnalyzeOnUpload then ⟨s, .disabled, [], false⟩
  else
    let st := getAutoUploadStats s.stats now
    let sA := { s with stats := some st }
    if sA.cancelFlag ∧ st.done < st.queued ∧ ¬ (now - st.lastAt > 30000) then
      ⟨sA, .cancelledSkip, [], false⟩
    else
      let sB := if sA.cancelFlag then { sA with cancelFlag := false } else sA
      let pr := wasRecentlyAutoProcessed now sB.seen attachmentId
      let sC := { sB with seen := pr.1 }
      if pr.2 then ⟨sC, .duplicate, [], false⟩
      else
        let fuseMax := effFuseMax cfg
        if cfg.autoUploadSafetyFuseEnabled ∧ fuseMax ≤ st.queued then
          let sD := { sC with cancelFlag := true, pausedFlag := false, pendingIds := [] }
          let eStop := sendAutoUploadProgress sD.pendingIds sD.pausedFlag "safety_stop"
            attachmentId st (some fuseMax)
          ⟨sD, .safetyFuse fuseMax, [eStop], false⟩
        else
          let stQ := { st with queued := st.queued + 1 }
          let pend := enqueueAutoPendingId sC.pendingIds attachmentId
          let sE := { sC with stats := some stQ, pendingIds := pend }
          let eQ := sendAutoUploadProgress sE.pendingIds sE.pausedFlag "queued" attachmentId stQ
          let sF := { sE with seen := markAutoProcessed sE.seen attachmentId now }
          ⟨sF, .accepted, [eQ], true⟩

/-- The counter update shared by the three settlement paths:
`st.done += 1` (+ `ok`/`error`), `st.lastAt = Date.now()`, on the
fetched-or-created stats entry. -/
def settleStats (s : TabState) (now okInc errInc : Nat) : AutoStats :=
  let st := getAutoUploadStats s.stats now
  { st with done := st.done + 1, ok := st.ok + okInc, error := st.error + errInc }

/-- The success tail of the job body (`src/background.js` 3339-3363):
`done`/`ok`/`lastAt` update, pending dequeue, `done_item`, and — when the
queue is drained — clearing of the paused flag and pending list followed
by `done_all`. -/
def settleSuccessJob (s : TabState) (id : String) (now : Nat) : TabState × List ProgressMsg :=
  let st := settleStats s now 1 0
  let pend := dequeueAutoPendingId s.pendingIds id
  let s1 := { s with stats := some st, pendingIds := pend }
  let e1 := sendAutoUploadProgress s1.pendingIds s1.pausedFlag "done_item" id st
  if st.queued ≤ st.done then
    let s2 := { s1 with pausedFlag := false, pendingIds := [] }
    let e2 := sendAutoUploadProgress s2.pendingIds s2.pausedFlag "done_all" id st
    (s2, [e1, e2])
  else (s1, [e1])

/-- The `AUTO_UPLOAD_CANCELLED` branch of the handler's `catch`
(3370-3399): unmark the seen entry, dequeue the pending id, `done += 1`,
`cancelled_item`, and — when drained — clear paused flag and pending
list, emit `cancelled`, and delete the cancel flag. -/
def settleCancelledJob (s : TabState) (id : String) (now : Nat) : TabState × List ProgressMsg :=
  let seen1 := unmarkAutoProcessed s.seen id
  let pend := dequeueAutoPendingId s.pendingIds id
  let st := settleStats s now 0 0
  let s1 := { s with seen := seen1, pendingIds := pend, stats := some st }
  let e1 := sendAutoUploadProgress s1.pendingIds s1.pausedFlag "cancelled_item" id st
  if st.queued ≤ st.done then
    let s2 := { s1 with pausedFlag := false, pendingIds := [], cancelFlag := false }
    let e2 := sendAutoUploadProgress s2.pendingIds s2.pausedFlag "cancelled" id st
    (s2, [e1, e2])
  else (s1, [e1])

/-- The generic error branch of the handler's `catch` (3402-3429), for a
job that reached the queue (`markedSeen` true): unmark the seen entry,
dequeue, `done`/`error` increment, `error_item`, and — when drained —
clear paused flag and pending list, then `done_all`.  The cancel flag is
left untouched. -/
def settleErrorJob (s : TabState) (id : String) (now : Nat) : TabState × List ProgressMsg :=
  let seen1 := unmarkAutoProcessed s.seen id
  let pend := dequeueAutoPendingId s.pendingIds id
  let st := settleStats s now 0 1
  let s1 := { s with seen := seen1, pendingIds := pend, stats := some st }
  let e1 := sendAutoUploadProgress s1.pendingIds s1.pausedFlag "error_item" id st
  if st.queued ≤ st.done then
    let s2 := { s1 with pausedFlag := false, pendingIds := [] }
    let e2 := sendAutoUploadProgress s2.pendingIds s2.pausedFlag "done_all" id st
    (s2, [e1, e2])
  else (s1, [e1])

/-- One auto-upload job: the closure passed to `enqueueAutoUploadJob`,
together with the external outcomes its suspension points can observe.
`analysisOk` is whether `analyzeImage` resolves; `applyRes i` is the
outcome of the `i`-th `MACA_APPLY_TO_ATTACHMENT` attempt of the retry
wrapper; `runAt` is the time at which the body runs and settles. -/
structure AutoJob where
  attachmentId : String
  runAt : Nat
  analysisOk : Bool
  applyRes : Nat → AttemptRes

/-- Stats counters as the job body reads them (the captured `st`). -/
def statsView (s : TabState) : AutoStats :=
  s.stats.getD { queued := 0, done := 0, ok := 0, error := 0, startedAt := 0, lastAt := 0 }

/-- One job body plus its settlement bookkeeping, run as one atomic step
of the per-tab chain.  Mirrors the body (3288-3366) and the `catch` of
the admitting handler:
- the cancel flag observed at the body's first checkpoint turns the whole
  job into the cancellation settlement (no `processing` event is emitted,
  the check precedes it);
- while paused with no cancel the body sits in `waitIfAutoUploadPaused`;
  with the flags constant (the sequential run modelled here) it stays
  suspended, so no events are produced — theorems below exclude this via
  `pausedFlag = false`, which every settlement path preserves;
- otherwise `processing` is emitted, then `analyzeImage`, then
  `autoApplyAttachmentWithRetry` with `{ attempts: 12, delayMs: 220 }`;
  a rejection of either is the generic error settlement, an
  `applied.ok` response is the success settlement.

The drained checks inside the settlement paths (3351, 3384, 3417) in
fact resume only after an awaited progress send; folding them into the
atomic chain step is adequate for body-ordering, counter and per-item
conclusions, but not for counting the drain's terminal events under
back-to-back cancellations — `settleCancelledSync` /
`settleCancelledDrainCheck` model that suspension explicitly. -/
def runAutoUploadJob (s : TabState) (j : AutoJob) : TabState × List ProgressMsg :=
  if s.cancelFlag then settleCancelledJob s j.attachmentId j.runAt
  else if s.pausedFlag then (s, [])
  else
    let eP := sendAutoUploadProgress s.pendingIds s.pausedFlag "processing" j.attachmentId
      (statsView s)
    if ¬ j.analysisOk then
      let r := settleErrorJob s j.attachmentId j.runAt
      (r.1, eP :: r.2)
    else if (autoApplyAttachmentWithRetry j.applyRes 12).ok then
      let r := settleSuccessJob s j.attachmentId j.runAt
      (r.1, eP :: r.2)
    else
      let r := settleErrorJob s j.attachmentId j.runAt
      (r.1, eP :: r.2)

/-- `enqueueAutoUploadJob(tabId, jobFn)`:
`const next = prev.catch(() => {}).then(jobFn)` — the new job is chained
onto the settlement of the previous tail promise, and the interposed
`.catch(() => {})` makes it run whether that promise fulfilled or
rejected.  The tab's chain is therefore the list of jobs in admission
order. -/
def enqueueAutoUploadJob (jobs : List AutoJob) (j : AutoJob) : List AutoJob :=
  jobs ++ [j]

/-- Run a tab's promise chain: each job body (with its settlement) runs
after the previous job has settled, regardless of that settlement's
outcome; the trace is the concatenation of the per-job traces. -/
def runAutoUploadChain (s : TabState) : List AutoJob → TabState × List ProgressMsg
  | [] => (s, [])
  | j :: rest =>
    let r1 := runAutoUploadJob s j
    let r2 := runAutoUploadChain r1.1 rest
    (r2.1, r1.2 ++ r2.2)

/-- The `MACA_AUTO_UPLOAD_CANCEL` handler (3445-3464): set the cancel
flag, delete the paused flag, fetch-or-create stats; if the queue is
already drained delete the cancel flag again; emit `cancelled` when
drained, `cancel_request` otherwise. -/
def handleAutoUploadCancel (s : TabState) (now : Nat) : TabState × List ProgressMsg :=
  let s1 := { s with cancelFlag := true, pausedFlag := false }
  let st := getAutoUploadStats s1.stats now
  let s2 := { s1 with stats := some st }
  let drained := st.queued ≤ st.done
  let s3 := if drained then { s2 with cancelFlag := false } else s2
  let e := sendAutoUploadProgress s3.pendingIds s3.pausedFlag
    (if drained then "cancelled" else "cancel_request") "" st
  (s3, [e])

/-- The `MACA_AUTO_UPLOAD_PAUSE` handler (3466-3481). -/
def handleAutoUploadPause (s : TabState) (now : Nat) : TabState × List ProgressMsg :=
  let s1 := { s with pausedFlag := true }
  let st := getAutoUploadStats s1.stats now
  let s2 := { s1 with stats := some st }
  (s2, [sendAutoUploadProgress s2.pendingIds s2.pausedFlag "paused" "" st])

/-- The `MACA_AUTO_UPLOAD_RESUME` handler (3483-3498). -/
def handleAutoUploadResume (s : TabState) (now : Nat) : TabState × List ProgressMsg :=
  let s1 := { s with pausedFlag := false }
  let st := getAutoUploadStats s1.stats now
  let s2 := { s1 with stats := some st }
  (s2, [sendAutoUploadProgress s2.pendingIds s2.pausedFlag "resumed" "" st])

/-! ### The per-tab system as an event-step machine

The coordinator's reachable states: the tab state together with the list
of enqueued-but-not-yet-settled jobs of the tab's promise chain (only
their attachment ids matter for the bookkeeping).  Each event is one
atomic piece of event-loop work: one admission handler run, one job
settlement (the chain settles jobs in FIFO order, so always the head),
or one of the control handlers. -/

/-- Tab state plus the ids of the jobs still pending on the chain. -/
structure SysState where
  tab : TabState
  chainJobs : List String
deriving Repr, DecidableEq

/-- A tab with no activity yet and an empty chain. -/
def sysStart : SysState := { tab := TabState.start, chainJobs := [] }

/-- One unit of coordinator work. -/
inductive AutoEvent where
  | admitEv (now : Nat) (id url : String)
  | settleOk (now : Nat)
  | settleErr (now : Nat)
  | settleCancel (now : Nat)
  | cancelReq (now : Nat)
  | pauseReq (now : Nat)
  | resumeReq (now : Nat)

/-- An admission message carrying the data the content script always
sends (nonempty attachment id and image URL); control events are always
well formed. -/
def wfAutoEvent : AutoEvent → Bool
  | .admitEv _ id url => !(id == "") && !(url == "")
  | _ => true

/-- The transition of one event.  A settlement with an empty chain has no
job to settle and is a no-op (the promise chain cannot reject without a
job). -/
def autoStep (cfg : AutoCfg) (sys : SysState) : AutoEvent → SysState
  | .admitEv now id url =>
    let out := handleAutoProcessAttachment cfg true sys.tab now id url
    { tab := out.state,
      chainJobs := sys.chainJobs ++ (if out.jobEnqueued then [id] else []) }
  | .settleOk now =>
    match sys.chainJobs with
    | [] => sys
    | id :: rest => { tab := (settleSuccessJob sys.tab id now).1, chainJobs := rest }
  | .settleErr now =>
    match sys.chainJobs with
    | [] => sys
    | id :: rest => { tab := (settleErrorJob sys.tab id now).1, chainJobs := rest }
  | .settleCancel now =>
    match sys.chainJobs with
    | [] => sys
    | id :: rest => { tab := (settleCancelledJob sys.tab id now).1, chainJobs := rest }
  | .cancelReq now => { sys with tab := (handleAutoUploadCancel sys.tab now).1 }
  | .pauseReq now => { sys with tab := (handleAutoUploadPause sys.tab now).1 }
  | .resumeReq now => { sys with tab := (handleAutoUploadResume sys.tab now).1 }

/-- Run a sequence of events. -/
def runAutoEvents (cfg : AutoCfg) (sys : SysState) : List AutoEvent → SysState
  | [] => sys
  | e :: rest => runAutoEvents cfg (autoStep cfg sys e) rest

/-! ### Upload signal tracker (content script)

Embedded from the current `context_helper.js` of the repository (the
version carrying the signal tracker, included in `src/README.md`):
the `AUTO_UPLOAD` record with `uploadSignalWindowMs: 45000`,
`uploadSessionStartAt: 0`, `lastUploadingSignalAt: 0`, and the functions
`hasRecentUploadSignal`, `markUploadSignal`, `countRecentUploadMarked`
and the trigger gate of `maybeAutoProcessUploadedAttachment`. -/

/-- `AUTO_UPLOAD.uploadSignalWindowMs`. -/
def uploadSignalWindowMs : Nat := 45000

/-- The two sliding-window fields of `AUTO_UPLOAD`. -/
structure UploadSignalState where
  lastUploadingSignalAt : Nat
  uploadSessionStartAt : Nat
deriving Repr, DecidableEq

/-- `hasRecentUploadSignal()`:
`(Date.now() - lastUploadingSignalAt) <= uploadSignalWindowMs`. -/
def hasRecentUploadSignal (now : Nat) (sig : UploadSignalState) : Bool :=
  decide (now - sig.lastUploadingSignalAt ≤ uploadSignalWindowMs)

/-- `markUploadSignal()`: a signal that arrives after the window has
expired resets `uploadSessionStartAt` to now; any signal refreshes
`lastUploadingSignalAt`. -/
def markUploadSignal (now : Nat) (sig : UploadSignalState) : UploadSignalState :=
  let wasRecent := now - sig.lastUploadingSignalAt ≤ uploadSignalWindowMs
  { lastUploadingSignalAt := now,
    uploadSessionStartAt := if wasRecent then sig.uploadSessionStartAt else now }

/-- One `AUTO_UPLOAD.byId` entry (`noteAttachmentMeta`). -/
structure AttachmentMeta where
  firstSeenAt : Nat
  sawUploading : Bool
  triggered : Bool
  retries : Nat
  initialScan : Bool
deriving Repr, DecidableEq

/-- The per-meta test inside the `countRecentUploadMarked` loop. -/
def recentUploadMarked (now : Nat) (sig : UploadSignalState) (windowMs : Nat)
    (meta : AttachmentMeta) : Bool :=
  if meta.firstSeenAt = 0 then false
  else if ¬ (now - meta.firstSeenAt ≤ windowMs) then false
  else
    let inUploadSession := hasRecentUploadSignal now sig && decide (0 < sig.uploadSessionStartAt)
    let inferredBySession := inUploadSession && !meta.initialScan
      && decide (sig.uploadSessionStartAt - 1000 ≤ meta.firstSeenAt)
    if ¬ (meta.sawUploading ∨ inferredBySession) then false
    else decide (now - meta.firstSeenAt ≤ windowMs)

/-- `countRecentUploadMarked(windowMs = AUTO_UPLOAD.uploadSignalWindowMs)`. -/
def countRecentUploadMarked (now : Nat) (sig : UploadSignalState)
    (metas : List AttachmentMeta) (windowMs : Nat := uploadSignalWindowMs) : Nat :=
  metas.countP (recentUploadMarked now sig windowMs)

/-- The batch-upload-flow gate computed by
`maybeAutoProcessUploadedAttachment`:
`isMultiUpload && inUploadSession && (fromUpload || looksLikeNewAfterBoot)`. -/
def allowBatchUploadFlow (now startedAt : Nat) (sig : UploadSignalState)
    (metas : List AttachmentMeta) (meta : AttachmentMeta) : Bool :=
  let fromUpload := meta.sawUploading
  let looksLikeNewAfterBoot := !meta.initialScan && decide (startedAt + 3000 < meta.firstSeenAt)
  let isMultiUpload := decide (2 ≤ countRecentUploadMarked now sig metas)
  let inUploadSession := hasRecentUploadSignal now sig && decide (0 < sig.uploadSessionStartAt)
  isMultiUpload && inUploadSession && (fromUpload || looksLikeNewAfterBoot)

/-! ### Auxiliary definitions used by the statements -/

/-- The operations the coordinator ever performs on a tab's pending-id
list: `enqueueAutoPendingId`, `dequeueAutoPendingId`, and the
`__autoUploadPendingIdsByTab.delete(tabId)` resets (fuse trip, drain). -/
inductive PendingOp where
  | enq (id : String)
  | deq (id : String)
  | clear

/-- Apply a sequence of pending-list operations. -/
def applyPendingOps : List String → List PendingOp → List String
  | l, [] => l
  | l, .enq id :: rest => applyPendingOps (enqueueAutoPendingId l id) rest
  | l, .deq id :: rest => applyPendingOps (dequeueAutoPendingId l id) rest
  | _, .clear :: rest => applyPendingOps [] rest

/-- The settlement phase a job's own environment determines, when it is
not cancelled: `done_item` when the analysis resolves and the retry
wrapper succeeds, `error_item` otherwise. -/
def jobOutcomePhase (j : AutoJob) : String :=
  if j.analysisOk && (autoApplyAttachmentWithRetry j.applyRes 12).ok then "done_item"
  else "error_item"

/-- Admit a list of `(attachmentId, time)` candidates in order, all with
image URL `u`, collecting each handler outcome. -/
def admitSeq (cfg : AutoCfg) (u : String) (s : TabState) :
    List (String × Nat) → TabState × List AdmitOut
  | [] => (s, [])
  | (id, t) :: rest =>
    let out := handleAutoProcessAttachment cfg true s t id u
    let r := admitSeq cfg u out.state rest
    (r.1, out :: r.2)

/-- The configuration the auto-upload defaults produce: analyze-on-upload
turned on, fuse enabled, no stored fuse maximum (so the limit is 24). -/
def cfgOn : AutoCfg :=
  { wpAutoAnalyzeOnUpload := true, autoUploadSafetyFuseEnabled := true,
    autoUploadSafetyFuseMaxQueued := none }

/-! ### The cancellation settlement at its real suspension point

The `AUTO_UPLOAD_CANCELLED` branch of the admitting handler's `catch`
(3370-3399) is not atomic: only its prefix up to the `cancelled_item`
send is synchronous.  `await sendAutoUploadProgress(...)` (3376) awaits
`chrome.tabs.sendMessage`, which cannot resolve within the current
microtask drain, while the chain's `.catch(() => {}).then(jobFn)`
reactions — and hence the next job's immediately-throwing body and the
next handler's synchronous catch prefix — are microtasks.  So when
several pending jobs observe the cancel flag back to back, every
handler's `st.done += 1` runs before any handler resumes at its drain
check `if (st.done >= st.queued)` (3384): all of them then see the same
shared, fully-incremented stats object.  The two definitions below model
the two halves, and `runCancelSettlementsConcurrent` replays exactly
this schedule: all synchronous prefixes in chain order, then all resumed
drain checks in order. -/

/-- The synchronous prefix of one cancellation settlement (3370-3383):
unmark the seen entry, dequeue the pending id, `st.done += 1`,
`st.lastAt = Date.now()`, and build the `cancelled_item` message whose
send the handler then awaits. -/
def settleCancelledSync (s : TabState) (id : String) (now : Nat) :
    TabState × ProgressMsg :=
  let seen1 := unmarkAutoProcessed s.seen id
  let pend := dequeueAutoPendingId s.pendingIds id
  let st := settleStats s now 0 0
  let s1 := { s with seen := seen1, pendingIds := pend, stats := some st }
  (s1, sendAutoUploadProgress s1.pendingIds s1.pausedFlag "cancelled_item" id st)

/-- The continuation after the awaited `cancelled_item` send
(3384-3397): re-read the shared stats object's counters; when
`done >= queued` delete the paused flag and the pending list, emit
`cancelled`, and delete the cancel flag. -/
def settleCancelledDrainCheck (s : TabState) (id : String) :
    TabState × List ProgressMsg :=
  let st := statsView s
  if st.queued ≤ st.done then
    let s2 := { s with pausedFlag := false, pendingIds := [], cancelFlag := false }
    (s2, [sendAutoUploadProgress s2.pendingIds s2.pausedFlag "cancelled" id st])
  else (s, [])

/-- Back-to-back cancellation settlements under the event loop's real
schedule: each `(id, time)` is one pending job observing the cancel flag
at its first checkpoint; phase one runs every handler's synchronous
prefix in chain order, phase two runs every handler's resumed drain
check in the same order. -/
def runCancelSettlementsConcurrent (s : TabState) (items : List (String × Nat)) :
    TabState × List ProgressMsg :=
  let phase1 := items.foldl
    (fun (acc : TabState × List ProgressMsg) it =>
      let r := settleCancelledSync acc.1 it.1 it.2
      (r.1, acc.2 ++ [r.2]))
    (s, [])
  items.foldl
    (fun (acc : TabState × List ProgressMsg) it =>
      let r := settleCancelledDrainCheck acc.1 it.1
      (r.1, acc.2 ++ r.2))
    phase1

/-! ## Helper lemmas -/

theorem retryGo_ok_iff (resp1 : Nat → AttemptRes) :
    ∀ fuel i, (retryGo resp1 i fuel).ok = true ↔ ∃ k, k < fuel ∧ attemptOk (resp1 (i + k)) := by
  intro fuel
  induction fuel with
  | zero => intro i; simp [retryGo]
  | succ n ih =>
    intro i
    by_cases h : attemptOk (resp1 i)
    · simp only [retryGo, h, if_true]
      constructor
      · intro _; exact ⟨0, Nat.succ_pos n, by simpa using h⟩
      · intro _; trivial
    · simp only [retryGo, h, if_false, Bool.false_eq_true, ite_false]
      rw [ih (i + 1)]
      constructor
      · rintro ⟨k, hk, hok⟩
        refine ⟨k + 1, Nat.succ_lt_succ hk, ?_⟩
        have harith : i + (k + 1) = i + 1 + k := by omega
        rw [harith]; exact hok
      · rintro ⟨k, hk, hok⟩
        cases k with
        | zero => simp only [Nat.add_zero] at hok; exact absurd hok h
        | succ m =>
          refine ⟨m, Nat.lt_of_succ_lt_succ hk, ?_⟩
          have harith : i + 1 + m = i + (m + 1) := by omega
          rw [harith]; exact hok

theorem retryGo_first (resp1 : Nat → AttemptRes) :
    ∀ fuel i j, j < fuel → attemptOk (resp1 (i + j)) →
      (∀ k, k < j → ¬ attemptOk (resp1 (i + k))) →
      retryGo resp1 i fuel = ⟨true, i + j + 1⟩ := by
  intro fuel
  induction fuel with
  | zero => intro i j hj; omega
  | succ n ih =>
    intro i j hj hok hmin
    cases j with
    | zero =>
      simp only [Nat.add_zero] at hok
      simp [retryGo, hok]
    | succ m =>
      have h0 : ¬ attemptOk (resp1 (i + 0)) := hmin 0 (Nat.succ_pos m)
      simp only [Nat.add_zero] at h0
      simp only [retryGo, h0, if_false, Bool.false_eq_true, ite_false]
      have hok1 : attemptOk (resp1 (i + 1 + m)) := by
        have harith : i + 1 + m = i + (m + 1) := by omega
        rw [harith]; exact hok
      have hmin1 : ∀ k, k < m → ¬ attemptOk (resp1 (i + 1 + k)) := by
        intro k hk
        have harith : i + 1 + k = i + (k + 1) := by omega
        rw [harith]; exact hmin (k + 1) (Nat.succ_lt_succ hk)
      have hres := ih (i + 1) m (Nat.lt_of_succ_lt_succ hj) hok1 hmin1
      rw [hres]
      have harith : i + 1 + m + 1 = i + (m + 1) + 1 := by omega
      rw [harith]

theorem retryGo_fail (resp1 : Nat → AttemptRes) :
    ∀ fuel i, (∀ k, k < fuel → ¬ attemptOk (resp1 (i + k))) →
      retryGo resp1 i fuel = ⟨false, i + fuel⟩ := by
  intro fuel
  induction fuel with
  | zero => intro i _; simp [retryGo]
  | succ n ih =>
    intro i hall
    have h0 : ¬ attemptOk (resp1 i) := by
      have := hall 0 (Nat.succ_pos n); simpa using this
    simp only [retryGo, h0, if_false, Bool.false_eq_true, ite_false]
    have hall1 : ∀ k, k < n → ¬ attemptOk (resp1 (i + 1 + k)) := by
      intro k hk
      have harith : i + 1 + k = i + (k + 1) := by omega
      rw [harith]; exact hall (k + 1) (Nat.succ_lt_succ hk)
    rw [ih (i + 1) hall1]
    have harith : i + 1 + n = i + (n + 1) := by omega
    rw [harith]

theorem retryGo_attempts_le (resp1 : Nat → AttemptRes) :
    ∀ fuel i, (retryGo resp1 i fuel).attempts ≤ i + fuel := by
  intro fuel
  induction fuel with
  | zero => intro i; simp [retryGo]
  | succ n ih =>
    intro i
    by_cases h : attemptOk (resp1 i)
    · simp only [retryGo, h, if_true]; omega
    · simp only [retryGo, h, if_false, Bool.false_eq_true, ite_false]
      have := ih (i + 1)
      omega

theorem statsView_some (s : TabState) (st : AutoStats) (h : s.stats = some st) :
    statsView s = st := by
  simp [statsView, h]

theorem getAutoUploadStats_queued (s : TabState) (now : Nat) :
    (getAutoUploadStats s.stats now).queued = (statsView s).queued := by
  cases h : s.stats <;> simp [getAutoUploadStats, statsView, h]

theorem getAutoUploadStats_done (s : TabState) (now : Nat) :
    (getAutoUploadStats s.stats now).done = (statsView s).done := by
  cases h : s.stats <;> simp [getAutoUploadStats, statsView, h]

theorem getAutoUploadStats_ok (s : TabState) (now : Nat) :
    (getAutoUploadStats s.stats now).ok = (statsView s).ok := by
  cases h : s.stats <;> simp [getAutoUploadStats, statsView, h]

theorem getAutoUploadStats_error (s : TabState) (now : Nat) :
    (getAutoUploadStats s.stats now).error = (statsView s).error := by
  cases h : s.stats <;> simp [getAutoUploadStats, statsView, h]

theorem settleStats_fields (s : TabState) (now okInc errInc : Nat) :
    (settleStats s now okInc errInc).queued = (statsView s).queued ∧
    (settleStats s now okInc errInc).done = (statsView s).done + 1 ∧
    (settleStats s now okInc errInc).ok = (statsView s).ok + okInc ∧
    (settleStats s now okInc errInc).error = (statsView s).error + errInc := by
  refine ⟨?_, ?_, ?_, ?_⟩ <;>
    simp [settleStats, getAutoUploadStats_queued, getAutoUploadStats_done,
      getAutoUploadStats_ok, getAutoUploadStats_error]

theorem settleErrorJob_stats (s : TabState) (id : String) (now : Nat) :
    (settleErrorJob s id now).1.stats = some (settleStats s now 0 1) := by
  simp only [settleErrorJob]
  split <;> rfl

theorem settleErrorJob_cancelFlag (s : TabState) (id : String) (now : Nat) :
    (settleErrorJob s id now).1.cancelFlag = s.cancelFlag := by
  simp only [settleErrorJob]
  split <;> rfl

theorem settleErrorJob_pausedFlag (s : TabState) (id : String) (now : Nat)
    (h : s.pausedFlag = false) : (settleErrorJob s id now).1.pausedFlag = false := by
  simp only [settleErrorJob]
  split <;> simp [h]

theorem settleErrorJob_events (s : TabState) (id : String) (now : Nat) :
    countPhase (settleErrorJob s id now).2 "error_item" = 1 ∧
    countPhase (settleErrorJob s id now).2 "done_item" = 0 ∧
    countPhase (settleErrorJob s id now).2 "cancelled_item" = 0 ∧
    countPhase (settleErrorJob s id now).2 "cancelled" = 0 ∧
    countPhase (settleErrorJob s id now).2 "processing" = 0 := by
  simp only [settleErrorJob]
  split <;> simp [countPhase, sendAutoUploadProgress]

theorem settleSuccessJob_stats (s : TabState) (id : String) (now : Nat) :
    (settleSuccessJob s id now).1.stats = some (settleStats s now 1 0) := by
  simp only [settleSuccessJob]
  split <;> rfl

theorem settleSuccessJob_cancelFlag (s : TabState) (id : String) (now : Nat) :
    (settleSuccessJob s id now).1.cancelFlag = s.cancelFlag := by
  simp only [settleSuccessJob]
  split <;> rfl

theorem settleSuccessJob_pausedFlag (s : TabState) (id : String) (now : Nat)
    (h : s.pausedFlag = false) : (settleSuccessJob s id now).1.pausedFlag = false := by
  simp only [settleSuccessJob]
  split <;> simp [h]

theorem settleSuccessJob_events (s : TabState) (id : String) (now : Nat) :
    countPhase (settleSuccessJob s id now).2 "done_item" = 1 ∧
    countPhase (settleSuccessJob s id now).2 "error_item" = 0 ∧
    countPhase (settleSuccessJob s id now).2 "cancelled_item" = 0 ∧
    countPhase (settleSuccessJob s id now).2 "cancelled" = 0 ∧
    countPhase (settleSuccessJob s id now).2 "processing" = 0 := by
  simp only [settleSuccessJob]
  split <;> simp [countPhase, sendAutoUploadProgress]

theorem settleCancelledJob_stats (s : TabState) (id : String) (now : Nat) :
    (settleCancelledJob s id now).1.stats = some (settleStats s now 0 0) := by
  simp only [settleCancelledJob]
  split <;> rfl

theorem settleCancelledJob_events (s : TabState) (id : String) (now : Nat) :
    countPhase (settleCancelledJob s id now).2 "cancelled_item" = 1 ∧
    countPhase (settleCancelledJob s id now).2 "done_item" = 0 ∧
    countPhase (settleCancelledJob s id now).2 "error_item" = 0 ∧
    countPhase (settleCancelledJob s id now).2 "processing" = 0 := by
  simp only [settleCancelledJob]
  split <;> simp [countPhase, sendAutoUploadProgress]

/-! ## Claim theorems -/

/-- C7: the Field-Applier retry wrapper, invoked with 12 attempts spaced
220 ms apart, returns success if and only if some attempt's response
reports at least one of the `alt`, `title`, `leyenda` fields as set; it
makes at most 12 attempts, stops at the first successful attempt
reporting the number of attempts used, returns failure after 12
unsuccessful attempts, and that failure is recorded by the job as an
item error (`done`/`error` increment, `error_item` event). -/
theorem auto_apply_retry_spec (resp1 : Nat → AttemptRes) :
    ((autoApplyAttachmentWithRetry resp1 12).ok = true ↔
      ∃ k, k < 12 ∧ attemptOk (resp1 k)) ∧
    (autoApplyAttachmentWithRetry resp1 12).attempts ≤ 12 ∧
    (∀ j, j < 12 → attemptOk (resp1 j) → (∀ k, k < j → ¬ attemptOk (resp1 k)) →
      autoApplyAttachmentWithRetry resp1 12 = ⟨true, j + 1⟩) ∧
    ((∀ k, k < 12 → ¬ attemptOk (resp1 k)) →
      autoApplyAttachmentWithRetry resp1 12 = ⟨false, 12⟩) ∧
    (∀ s j, s.cancelFlag = false → s.pausedFlag = false → j.analysisOk = true →
      j.applyRes = resp1 → (autoApplyAttachmentWithRetry resp1 12).ok = false →
      ∃ st, (runAutoUploadJob s j).1.stats = some st ∧
        st.done = (statsView s).done + 1 ∧ st.error = (statsView s).error + 1 ∧
        countPhase (runAutoUploadJob s j).2 "error_item" = 1) := by
  refine ⟨?_, ?_, ?_, ?_, ?_⟩
  · have h := retryGo_ok_iff resp1 12 0
    simpa [autoApplyAttachmentWithRetry] using h
  · have h := retryGo_attempts_le resp1 12 0
    simpa [autoApplyAttachmentWithRetry] using h
  · intro j hj hok hmin
    have h := retryGo_first resp1 12 0 j hj (by simpa using hok)
      (fun k hk => by simpa using hmin k hk)
    simpa [autoApplyAttachmentWithRetry] using h
  · intro hall
    have h := retryGo_fail resp1 12 0 (fun k hk => by simpa using hall k hk)
    simpa [autoApplyAttachmentWithRetry] using h
  · intro s j hc hp hA hR hfail
    have hbody : runAutoUploadJob s j =
        ((settleErrorJob s j.attachmentId j.runAt).1,
          sendAutoUploadProgress s.pendingIds s.pausedFlag "processing" j.attachmentId
            (statsView s) :: (settleErrorJob s j.attachmentId j.runAt).2) := by
      simp [runAutoUploadJob, hc, hp, hA, hR, hfail]
    refine ⟨settleStats s j.runAt 0 1, ?_, ?_, ?_, ?_⟩
    · rw [hbody]; exact settleErrorJob_stats s j.attachmentId j.runAt
    · exact (settleStats_fields s j.runAt 0 1).2.1
    · exact (settleStats_fields s j.runAt 0 1).2.2.2
    · rw [hbody]
      have := (settleErrorJob_events s j.attachmentId j.runAt).1
      simp [countPhase, sendAutoUploadProgress] at this ⊢
      exact this

/-- Witness for C7 at concrete inputs: a response stream failing on
attempts 0 and 1 and reporting `title` set on attempt 2 makes the
wrapper stop with `{ok: true, attempts: 3}`; an always-throwing stream
yields `{ok: false, attempts: 12}` and an `error_item` settlement. -/
theorem auto_apply_retry_spec_witness :
    autoApplyAttachmentWithRetry
      (fun i => if i = 2 then .resp ⟨false, true, false⟩ else .err) 12 =
      ⟨true, 3⟩ ∧
    autoApplyAttachmentWithRetry (fun _ => .err) 12 = ⟨false, 12⟩ ∧
    countPhase
      (runAutoUploadJob TabState.start
        { attachmentId := "9", runAt := 5, analysisOk := true,
          applyRes := fun _ => .err }).2 "error_item" = 1 := by
  refine ⟨?_, ?_, ?_⟩
  · exact (auto_apply_retry_spec
      (fun i => if i = 2 then .resp ⟨false, true, false⟩ else .err)).2.2.1 2
      (by decide) (by decide) (by decide)
  · exact (auto_apply_retry_spec (fun _ => .err)).2.2.2.1 (by decide)
  · obtain ⟨st, _hst, _hd, _he, hcount⟩ :=
      (auto_apply_retry_spec (fun _ => .err)).2.2.2.2 TabState.start
        { attachmentId := "9", runAt := 5, analysisOk := true, applyRes := fun _ => .err }
        rfl rfl rfl rfl (by decide)
    exact hcount

theorem applyPendingOps_inv :
    ∀ (ops : List PendingOp) (l : List String), l.Nodup → "" ∉ l →
      (applyPendingOps l ops).Nodup ∧ "" ∉ applyPendingOps l ops := by
  intro ops
  induction ops with
  | nil => intro l h1 h2; exact ⟨h1, h2⟩
  | cons op rest ih =>
    intro l h1 h2
    cases op with
    | enq id =>
      simp only [applyPendingOps, enqueueAutoPendingId]
      by_cases hid : id = ""
      · simp only [hid, if_true]; exact ih l h1 h2
      · simp only [hid, if_false, ite_false]
        by_cases hmem : id ∈ l
        · simp only [hmem, if_true]; exact ih l h1 h2
        · simp only [hmem, if_false, ite_false]
          refine ih (l ++ [id]) ?_ ?_
          · simp [List.nodup_append, h1, List.disjoint_singleton, hmem]
          · intro hc
            rcases List.mem_append.mp hc with h | h
            · exact h2 h
            · simp at h; exact hid h.symm
    | deq id =>
      simp only [applyPendingOps, dequeueAutoPendingId]
      by_cases hid : id = ""
      · simp only [hid, if_true]; exact ih l h1 h2
      · simp only [hid, if_false, ite_false]
        refine ih (l.erase id) (h1.erase id) ?_
        intro hc
        exact h2 (List.mem_of_mem_erase hc)
    | clear =>
      simp only [applyPendingOps]
      exact ih [] List.nodup_nil (by simp)

/-- C10: the pending-id list never contains an empty id and never
contains the same attachment id twice under any sequence of the
coordinator's operations (`enqueueAutoPendingId` skips empty and
already-present ids, `dequeueAutoPendingId` and the list resets preserve
the invariant); the queue preview is the length-≤-8 prefix of the
pending list, and every progress message built by
`sendAutoUploadProgress` carries exactly that preview. -/
theorem pending_ids_nodup_and_preview :
    (∀ ops : List PendingOp,
      (applyPendingOps [] ops).Nodup ∧ "" ∉ applyPendingOps [] ops) ∧
    (∀ l : List String, queuePreviewFromTab l 8 = l.take 8 ∧
      (queuePreviewFromTab l 8).length ≤ 8 ∧
      ∃ rest, l = queuePreviewFromTab l 8 ++ rest) ∧
    (∀ (pend : List String) (paused : Bool) (ph id : String) (st : AutoStats)
      (fm : Option Nat),
      (sendAutoUploadProgress pend paused ph id st fm).queue = queuePreviewFromTab pend 8) := by
  refine ⟨?_, ?_, ?_⟩
  · intro ops
    exact applyPendingOps_inv ops [] List.nodup_nil (by simp)
  · intro l
    refine ⟨rfl, ?_, ⟨l.drop 8, ?_⟩⟩
    · simp [queuePreviewFromTab]
    · simp [queuePreviewFromTab]
  · intro pend paused ph id st fm
    rfl

/-- C8: the tracker classifies "inside an upload session" with a 45 s
sliding window: a signal arriving after the window has expired resets
`uploadSessionStartAt` to now (and refreshes `lastUploadingSignalAt`),
while a signal within the window only refreshes
`lastUploadingSignalAt`; and the batch-upload auto-processing gate is
true only when the window gate holds (recent signal and a started
session) together with at least 2 attachments recently marked as
uploading. -/
theorem upload_signal_window_spec :
    (∀ (now : Nat) (sig : UploadSignalState),
      uploadSignalWindowMs < now - sig.lastUploadingSignalAt →
      markUploadSignal now sig =
        { lastUploadingSignalAt := now, uploadSessionStartAt := now }) ∧
    (∀ (now : Nat) (sig : UploadSignalState),
      now - sig.lastUploadingSignalAt ≤ uploadSignalWindowMs →
      markUploadSignal now sig =
        { lastUploadingSignalAt := now,
          uploadSessionStartAt := sig.uploadSessionStartAt }) ∧
    (∀ (now startedAt : Nat) (sig : UploadSignalState)
      (metas : List AttachmentMeta) (meta : AttachmentMeta),
      allowBatchUploadFlow now startedAt sig metas meta = true →
      2 ≤ countRecentUploadMarked now sig metas ∧
      hasRecentUploadSignal now sig = true ∧
      0 < sig.uploadSessionStartAt) := by
  refine ⟨?_, ?_, ?_⟩
  · intro now sig h
    have hnr : ¬ (now - sig.lastUploadingSignalAt ≤ uploadSignalWindowMs) := by omega
    simp [markUploadSignal, hnr]
  · intro now sig h
    simp [markUploadSignal, h]
  · intro now startedAt sig metas meta h
    simp only [allowBatchUploadFlow, Bool.and_eq_true, decide_eq_true_eq] at h
    exact ⟨h.1.1, h.1.2.1, h.1.2.2⟩

/-- Witness for C8 at concrete inputs: with the last signal at t=1000, a
signal at t=50000 (49 s later, outside the 45 s window) starts a new
session, while one at t=40000 only refreshes the last-signal time; and a
batch gate that evaluates to true has at least two recently-marked
uploading attachments and a live window. -/
theorem upload_signal_window_spec_witness :
    markUploadSignal 50000 { lastUploadingSignalAt := 1000, uploadSessionStartAt := 800 } =
      { lastUploadingSignalAt := 50000, uploadSessionStartAt := 50000 } ∧
    markUploadSignal 40000 { lastUploadingSignalAt := 1000, uploadSessionStartAt := 800 } =
      { lastUploadingSignalAt := 40000, uploadSessionStartAt := 800 } ∧
    2 ≤ countRecentUploadMarked 10000 { lastUploadingSignalAt := 9000, uploadSessionStartAt := 7000 }
      [{ firstSeenAt := 8000, sawUploading := true, triggered := false, retries := 0,
         initialScan := false },
       { firstSeenAt := 8500, sawUploading := true, triggered := false, retries := 0,
         initialScan := false }] := by
  refine ⟨?_, ?_, ?_⟩
  · exact upload_signal_window_spec.1 50000
      { lastUploadingSignalAt := 1000, uploadSessionStartAt := 800 } (by decide)
  · exact upload_signal_window_spec.2.1 40000
      { lastUploadingSignalAt := 1000, uploadSessionStartAt := 800 } (by decide)
  · exact (upload_signal_window_spec.2.2 10000 0
      { lastUploadingSignalAt := 9000, uploadSessionStartAt := 7000 }
      [{ firstSeenAt := 8000, sawUploading := true, triggered := false, retries := 0,
         initialScan := false },
       { firstSeenAt := 8500, sawUploading := true, triggered := false, retries := 0,
         initialScan := false }]
      { firstSeenAt := 8000, sawUploading := true, triggered := false, retries := 0,
        initialScan := false } (by decide)).1

theorem runAutoUploadChain_append (xs : List AutoJob) :
    ∀ (s : TabState) (ys : List AutoJob),
      runAutoUploadChain s (xs ++ ys) =
        ((runAutoUploadChain (runAutoUploadChain s xs).1 ys).1,
         (runAutoUploadChain s xs).2 ++ (runAutoUploadChain (runAutoUploadChain s xs).1 ys).2) := by
  induction xs with
  | nil => intro s ys; simp [runAutoUploadChain]
  | cons j rest ih =>
    intro s ys
    simp only [List.cons_append, runAutoUploadChain, List.append_eq]
    rw [ih (runAutoUploadJob s j).1 ys]
    simp [List.append_assoc]

/-- C1: auto-upload jobs of one tab execute strictly in admission order.
For any chain containing job `a` enqueued before job `b` (with arbitrary
jobs before, between and after, and arbitrary job environments — in
particular `a` may reject), the trace of the chained run is the
concatenation of the per-job traces in admission order: `a`'s whole body
and settlement appear before anything of `b`.  This is exactly what
`enqueueAutoUploadJob`'s `prev.catch(() => {}).then(jobFn)` chaining
provides: each body runs only after the previous job's promise settled,
fulfilled or rejected. -/
theorem auto_upload_fifo_per_tab (s : TabState) (pre mid post : List AutoJob)
    (a b : AutoJob) :
    (runAutoUploadChain s (pre ++ a :: (mid ++ b :: post))).2 =
      (runAutoUploadChain s pre).2 ++
      ((runAutoUploadJob (runAutoUploadChain s pre).1 a).2 ++
       ((runAutoUploadChain (runAutoUploadJob (runAutoUploadChain s pre).1 a).1 mid).2 ++
        ((runAutoUploadJob
            (runAutoUploadChain (runAutoUploadJob (runAutoUploadChain s pre).1 a).1 mid).1
            b).2 ++
         (runAutoUploadChain
            (runAutoUploadJob
              (runAutoUploadChain (runAutoUploadJob (runAutoUploadChain s pre).1 a).1 mid).1
              b).1 post).2))) := by
  rw [runAutoUploadChain_append pre]
  simp only [runAutoUploadChain]
  rw [runAutoUploadChain_append mid]
  simp only [runAutoUploadChain]

theorem pruneSeen_subset (now ttl : Nat) (seen : List (String × Nat)) :
    ∀ p ∈ pruneSeen now ttl seen, p ∈ seen := by
  intro p hp
  exact (List.mem_filter.mp hp).1

theorem wasRecently_fresh (now : Nat) (seen : List (String × Nat)) (id : String)
    (ttl : Nat) (hfresh : ∀ p ∈ seen, p.1 ≠ id) :
    (wasRecentlyAutoProcessed now seen id ttl).2 = false := by
  unfold wasRecentlyAutoProcessed
  by_cases hid : id = ""
  · simp [hid]
  · have hnone : seenLookup (pruneSeen now ttl seen) id = none := by
      unfold seenLookup
      rw [List.find?_eq_none.mpr]
      · rfl
      · intro p hp
        have := hfresh p (pruneSeen_subset now ttl seen p hp)
        simp [this]
    simp [hid, hnone]

theorem seenSet_fresh (l : List (String × Nat)) (id : String) (ts : Nat)
    (hfresh : ∀ p ∈ l, p.1 ≠ id) : seenSet l id ts = l ++ [(id, ts)] := by
  unfold seenSet
  have hany : l.any (fun p => p.1 == id) = false := by
    rw [List.any_eq_false]
    intro p hp
    simp [hfresh p hp]
  simp [hany]

theorem markAutoProcessed_fresh (l : List (String × Nat)) (id : String) (now : Nat)
    (hid : id ≠ "") (hfresh : ∀ p ∈ l, p.1 ≠ id) :
    markAutoProcessed l id now = l ++ [(id, now)] := by
  unfold markAutoProcessed
  simp [hid, seenSet_fresh l id now hfresh]

/-- Accepted admission: with the gates passing (nonempty data, WordPress
page, feature on, no cancel flag, id not in the seen registry, fuse not
tripping) the handler increments `queued`, enqueues the pending id,
marks the seen registry and chains the job. -/
theorem admit_accept (cfg : AutoCfg) (s : TabState) (now : Nat) (id u : String)
    (hid : id ≠ "") (hu : u ≠ "")
    (hcfg : cfg.wpAutoAnalyzeOnUpload = true)
    (hc : s.cancelFlag = false)
    (hfresh : ∀ p ∈ s.seen, p.1 ≠ id)
    (hq : cfg.autoUploadSafetyFuseEnabled = false ∨ (statsView s).queued < effFuseMax cfg) :
    (handleAutoProcessAttachment cfg true s now id u).result = .accepted ∧
    (handleAutoProcessAttachment cfg true s now id u).jobEnqueued = true ∧
    (handleAutoProcessAttachment cfg true s now id u).state.cancelFlag = false ∧
    (handleAutoProcessAttachment cfg true s now id u).state.pausedFlag = s.pausedFlag ∧
    (statsView (handleAutoProcessAttachment cfg true s now id u).state).queued =
      (statsView s).queued + 1 ∧
    (statsView (handleAutoProcessAttachment cfg true s now id u).state).done =
      (statsView s).done ∧
    (handleAutoProcessAttachment cfg true s now id u).state.seen =
      pruneSeen now 300000 s.seen ++ [(id, now)] ∧
    (handleAutoProcessAttachment cfg true s now id u).state.pendingIds =
      enqueueAutoPendingId s.pendingIds id ∧
    countPhase (handleAutoProcessAttachment cfg true s now id u).events "queued" = 1 := by
  have hdup : (wasRecentlyAutoProcessed now s.seen id).2 = false :=
    wasRecently_fresh now s.seen id 300000 hfresh
  have hqx : ¬ (cfg.autoUploadSafetyFuseEnabled = true ∧
      effFuseMax cfg ≤ (getAutoUploadStats s.stats now).queued) := by
    rw [getAutoUploadStats_queued]
    rcases hq with h | h
    · intro hcon; rw [h] at hcon; exact Bool.false_ne_true hcon.1
    · intro hcon; omega
  have hprune : ∀ p ∈ pruneSeen now 300000 s.seen, p.1 ≠ id := by
    intro p hp
    exact hfresh p (pruneSeen_subset now 300000 s.seen p hp)
  have hmark : markAutoProcessed (pruneSeen now 300000 s.seen) id now =
      pruneSeen now 300000 s.seen ++ [(id, now)] :=
    markAutoProcessed_fresh _ id now hid hprune
  have hfst : (wasRecentlyAutoProcessed now s.seen id).1 = pruneSeen now 300000 s.seen := by
    unfold wasRecentlyAutoProcessed
    by_cases h0 : id = ""
    · simp [h0]
    · simp only [h0, ite_false]
      cases h : seenLookup (pruneSeen now 300000 s.seen) id <;> simp [h]
  unfold handleAutoProcessAttachment
  simp only [hid, hu, hcfg, hc, hdup, hqx, hfst, Bool.false_eq_true, false_and,
    or_self, not_true, ite_false, if_false, false_or, or_false, and_false,
    not_false_eq_true, if_true, ite_true, if_neg, reduceIte]
  simp [statsView, getAutoUploadStats_queued, getAutoUploadStats_done, hmark,
    countPhase, sendAutoUploadProgress]

/-- Fuse trip: with the fuse enabled and `queued` already at or past the
effective limit, admission sets the cancel flag, clears the paused flag
and the pending-id list, emits one `safety_stop` event carrying
`fuseMax`, rejects with `safety_fuse`, and chains no job; the counters
are untouched. -/
theorem admit_fuse_trip (cfg : AutoCfg) (s : TabState) (now : Nat) (id u : String)
    (hid : id ≠ "") (hu : u ≠ "")
    (hcfg : cfg.wpAutoAnalyzeOnUpload = true)
    (hfuse : cfg.autoUploadSafetyFuseEnabled = true)
    (hc : s.cancelFlag = false)
    (hdup : (wasRecentlyAutoProcessed now s.seen id).2 = false)
    (hq : effFuseMax cfg ≤ (statsView s).queued) :
    (handleAutoProcessAttachment cfg true s now id u).result =
      .safetyFuse (effFuseMax cfg) ∧
    (handleAutoProcessAttachment cfg true s now id u).jobEnqueued = false ∧
    (handleAutoProcessAttachment cfg true s now id u).state.cancelFlag = true ∧
    (handleAutoProcessAttachment cfg true s now id u).state.pausedFlag = false ∧
    (handleAutoProcessAttachment cfg true s now id u).state.pendingIds = [] ∧
    (statsView (handleAutoProcessAttachment cfg true s now id u).state).queued =
      (statsView s).queued ∧
    (statsView (handleAutoProcessAttachment cfg true s now id u).state).done =
      (statsView s).done ∧
    countPhase (handleAutoProcessAttachment cfg true s now id u).events "safety_stop" = 1 ∧
    (∀ e ∈ (handleAutoProcessAttachment cfg true s now id u).events,
      e.fuseMax = some (effFuseMax cfg)) := by
  have hq' : effFuseMax cfg ≤ (getAutoUploadStats s.stats now).queued := by
    rw [getAutoUploadStats_queued]; exact hq
  unfold handleAutoProcessAttachment
  simp only [hid, hu, hcfg, hc, hdup, hfuse, hq', Bool.false_eq_true, false_and,
    or_self, not_true, ite_false, if_false, false_or, or_false, and_false,
    true_and, and_true, not_false_eq_true, if_true, ite_true, reduceIte]
  simp [statsView, getAutoUploadStats_queued, getAutoUploadStats_done,
    countPhase, sendAutoUploadProgress]

/-- A run of fresh, distinct, nonempty candidates all below the fuse
limit is accepted wholesale: each admission enqueues one job and
increments `queued` once. -/
theorem admitSeq_all_accepted (cfg : AutoCfg) (u : String) (hu : u ≠ "")
    (hcfg : cfg.wpAutoAnalyzeOnUpload = true) :
    ∀ (items : List (String × Nat)) (s : TabState),
      (∀ it ∈ items, it.1 ≠ "") →
      (items.map Prod.fst).Nodup →
      (∀ it ∈ items, ∀ p ∈ s.seen, p.1 ≠ it.1) →
      s.cancelFlag = false →
      (statsView s).queued + items.length ≤ effFuseMax cfg →
      (admitSeq cfg u s items).2.map (fun o => o.result) =
        List.replicate items.length .accepted ∧
      ((admitSeq cfg u s items).2.countP (fun o => o.jobEnqueued)) = items.length ∧
      (statsView (admitSeq cfg u s items).1).queued =
        (statsView s).queued + items.length ∧
      (admitSeq cfg u s items).1.cancelFlag = false ∧
      (admitSeq cfg u s items).1.pausedFlag = s.pausedFlag ∧
      (∀ x, (∀ p ∈ s.seen, p.1 ≠ x) → x ∉ items.map Prod.fst →
        ∀ p ∈ (admitSeq cfg u s items).1.seen, p.1 ≠ x) := by
  intro items
  induction items with
  | nil =>
    intro s _ _ _ hc _
    refine ⟨rfl, rfl, by simp [admitSeq], hc, rfl, ?_⟩
    intro x hx _ p hp
    exact hx p hp
  | cons it rest ih =>
    obtain ⟨id, t⟩ := it
    intro s hids hnodup hfresh hc hlen
    have hid : id ≠ "" := hids (id, t) (List.mem_cons_self _ _)
    have hfr : ∀ p ∈ s.seen, p.1 ≠ id := fun p hp => hfresh (id, t) (.head _) p hp
    have hql : (statsView s).queued < effFuseMax cfg := by
      simp only [List.length_cons] at hlen; omega
    have hacc := admit_accept cfg s t id u hid hu hcfg hc hfr (Or.inr hql)
    obtain ⟨hres, henq, hc1, hp1, hq1, _hd1, hseen1, _hpend1, _hev1⟩ := hacc
    have hnodup' : (rest.map Prod.fst).Nodup := by
      simp only [List.map_cons, List.nodup_cons] at hnodup
      exact hnodup.2
    have hidnot : id ∉ rest.map Prod.fst := by
      simp only [List.map_cons, List.nodup_cons] at hnodup
      exact hnodup.1
    have hfresh' : ∀ jt ∈ rest,
        ∀ p ∈ (handleAutoProcessAttachment cfg true s t id u).state.seen, p.1 ≠ jt.1 := by
      intro jt hjt p hp
      rw [hseen1] at hp
      rcases List.mem_append.mp hp with h | h
      · exact hfresh jt (List.mem_cons_of_mem _ hjt) p (pruneSeen_subset t 300000 s.seen p h)
      · simp only [List.mem_singleton] at h
        subst h
        intro hcon
        exact hidnot (by
          simp only [List.mem_map]
          exact ⟨jt, hjt, hcon.symm⟩)
    have hlen' : (statsView (handleAutoProcessAttachment cfg true s t id u).state).queued
        + rest.length ≤ effFuseMax cfg := by
      rw [hq1]
      simp only [List.length_cons] at hlen
      omega
    have hrest := ih (handleAutoProcessAttachment cfg true s t id u).state
      (fun jt hjt => hids jt (List.mem_cons_of_mem _ hjt))
      hnodup' hfresh' hc1 hlen'
    simp only [admitSeq, List.map_cons, List.length_cons, List.countP_cons]
    refine ⟨?_, ?_, ?_, hrest.2.2.2.1, ?_, ?_⟩
    · rw [hres, hrest.1, List.replicate_succ]
    · rw [hrest.2.1]
      simp [henq]
    · rw [hrest.2.2.1, hq1]
      omega
    · rw [hrest.2.2.2.2.1, hp1]
    · intro x hx hxnot p hp
      have hx1 : ∀ q ∈ (handleAutoProcessAttachment cfg true s t id u).state.seen,
          q.1 ≠ x := by
        intro q hq
        rw [hseen1] at hq
        rcases List.mem_append.mp hq with h | h
        · exact hx q (pruneSeen_subset t 300000 s.seen q h)
        · simp only [List.mem_singleton] at h
          subst h
          intro hcon
          apply hxnot
          rw [← hcon]
          exact List.mem_cons_self _ _
      have hx2 : x ∉ rest.map Prod.fst := by
        intro hcon
        exact hxnot (List.mem_cons_of_mem _ hcon)
      exact hrest.2.2.2.2.2 x hx1 hx2 p hp

theorem admitSeq_append (cfg : AutoCfg) (u : String) (xs : List (String × Nat)) :
    ∀ (s : TabState) (ys : List (String × Nat)),
      admitSeq cfg u s (xs ++ ys) =
        ((admitSeq cfg u (admitSeq cfg u s xs).1 ys).1,
         (admitSeq cfg u s xs).2 ++ (admitSeq cfg u (admitSeq cfg u s xs).1 ys).2) := by
  induction xs with
  | nil => intro s ys; simp [admitSeq]
  | cons it rest ih =>
    obtain ⟨id, t⟩ := it
    intro s ys
    simp only [List.cons_append, admitSeq, List.append_eq]
    rw [ih (handleAutoProcessAttachment cfg true s t id u).state ys]

/-- C2: with the safety fuse enabled and the effective limit `fuseMax`
(24 when no value is stored, any stored value clamped to a minimum
of 5), admitting a candidate while `queued >= fuseMax` does not enqueue
a job: it sets the tab's cancel flag, clears the paused flag and the
pending-id list, emits one `safety_stop` event carrying `fuseMax`, and
rejects the admission with reason `safety_fuse`; hence admitting `N+1`
distinct candidates under `fuseMax = N` yields the `safety_stop`
rejection on the last one and exactly `N` enqueued jobs. -/
theorem safety_fuse_spec :
    (∀ b1 b2, effFuseMax ⟨b1, b2, none⟩ = 24) ∧
    (∀ b1 b2 (v : Int), 5 ≤ effFuseMax ⟨b1, b2, some v⟩) ∧
    (∀ (cfg : AutoCfg) (s : TabState) (now : Nat) (id u : String),
      id ≠ "" → u ≠ "" → cfg.wpAutoAnalyzeOnUpload = true →
      cfg.autoUploadSafetyFuseEnabled = true → s.cancelFlag = false →
      (wasRecentlyAutoProcessed now s.seen id).2 = false →
      effFuseMax cfg ≤ (statsView s).queued →
      (handleAutoProcessAttachment cfg true s now id u).result =
        .safetyFuse (effFuseMax cfg) ∧
      (handleAutoProcessAttachment cfg true s now id u).jobEnqueued = false ∧
      (handleAutoProcessAttachment cfg true s now id u).state.cancelFlag = true ∧
      (handleAutoProcessAttachment cfg true s now id u).state.pausedFlag = false ∧
      (handleAutoProcessAttachment cfg true s now id u).state.pendingIds = [] ∧
      countPhase (handleAutoProcessAttachment cfg true s now id u).events "safety_stop" = 1 ∧
      (∀ e ∈ (handleAutoProcessAttachment cfg true s now id u).events,
        e.fuseMax = some (effFuseMax cfg))) ∧
    (∀ (cfg : AutoCfg) (u : String) (items : List (String × Nat)),
      u ≠ "" → cfg.wpAutoAnalyzeOnUpload = true →
      cfg.autoUploadSafetyFuseEnabled = true →
      (∀ it ∈ items, it.1 ≠ "") → (items.map Prod.fst).Nodup →
      items.length = effFuseMax cfg + 1 →
      (admitSeq cfg u TabState.start items).2.map (fun o => o.result) =
        List.replicate (effFuseMax cfg) .accepted ++ [.safetyFuse (effFuseMax cfg)] ∧
      ((admitSeq cfg u TabState.start items).2.countP (fun o => o.jobEnqueued)) =
        effFuseMax cfg ∧
      (admitSeq cfg u TabState.start items).1.cancelFlag = true ∧
      (admitSeq cfg u TabState.start items).1.pendingIds = []) := by
  refine ⟨fun b1 b2 => rfl, fun b1 b2 v => ?_, ?_, ?_⟩
  · show 5 ≤ (max 5 v).toNat
    omega
  · intro cfg s now id u hid hu hcfg hfuse hc hdup hq
    have h := admit_fuse_trip cfg s now id u hid hu hcfg hfuse hc hdup hq
    exact ⟨h.1, h.2.1, h.2.2.1, h.2.2.2.1, h.2.2.2.2.1, h.2.2.2.2.2.2.2.1,
      h.2.2.2.2.2.2.2.2⟩
  · intro cfg u items hu hcfg hfuse hids hnodup hlen
    rcases List.eq_nil_or_concat items with hnil | ⟨front, lastIt, hsplit⟩
    · rw [hnil] at hlen; simp at hlen
    obtain ⟨lid, lt⟩ := lastIt
    rw [List.concat_eq_append] at hsplit
    subst hsplit
    have hlenf : front.length = effFuseMax cfg := by
      simp only [List.length_append, List.length_singleton] at hlen
      omega
    have hmapsplit : (front ++ [(lid, lt)]).map Prod.fst =
        front.map Prod.fst ++ [lid] := by simp
    rw [hmapsplit] at hnodup
    have hnodupf : (front.map Prod.fst).Nodup := (List.nodup_append.mp hnodup).1
    have hlidnot : lid ∉ front.map Prod.fst := by
      have hdisj := (List.nodup_append.mp hnodup).2.2
      intro hcon
      exact hdisj hcon (List.mem_singleton_self lid)
    have hidsf : ∀ it ∈ front, it.1 ≠ "" := by
      intro it hit
      exact hids it (List.mem_append_left _ hit)
    have hlid : lid ≠ "" :=
      hids (lid, lt) (List.mem_append_right _ (List.mem_singleton_self _))
    have hfront := admitSeq_all_accepted cfg u hu hcfg front TabState.start hidsf hnodupf
      (by intro it _ p hp; simp [TabState.start] at hp) rfl
      (by simp [TabState.start, statsView]; omega)
    obtain ⟨hfm, hfc, hfq, hfcan, hfp, hfseen⟩ := hfront
    have hfreshLast : ∀ p ∈ (admitSeq cfg u TabState.start front).1.seen, p.1 ≠ lid := by
      refine hfseen lid ?_ hlidnot
      intro p hp
      simp [TabState.start] at hp
    have hdupLast : (wasRecentlyAutoProcessed lt
        (admitSeq cfg u TabState.start front).1.seen lid).2 = false :=
      wasRecently_fresh _ _ _ _ hfreshLast
    have hqLast : effFuseMax cfg ≤ (statsView (admitSeq cfg u TabState.start front).1).queued := by
      rw [hfq]
      simp [TabState.start, statsView, hlenf]
    have htrip := admit_fuse_trip cfg (admitSeq cfg u TabState.start front).1 lt lid u
      hlid hu hcfg hfuse hfcan hdupLast hqLast
    rw [admitSeq_append cfg u front TabState.start [(lid, lt)]]
    simp only [admitSeq, List.map_append, List.countP_append, List.map_cons,
      List.map_nil, List.countP_cons, List.countP_nil]
    refine ⟨?_, ?_, ?_, ?_⟩
    · rw [hfm, hlenf, htrip.1]
    · rw [hfc, hlenf]
      simp [htrip.2.1]
    · exact htrip.2.2.1
    · exact htrip.2.2.2.2.1

/-- Witness for C2 at concrete inputs: with a stored fuse value of 5
(clamped limit 5) and six distinct candidates admitted into a fresh tab,
the first five are accepted and chained and the sixth trips the fuse. -/
theorem safety_fuse_spec_witness :
    effFuseMax ⟨true, true, none⟩ = 24 ∧
    (5 : Nat) ≤ effFuseMax ⟨true, true, some 2⟩ ∧
    (admitSeq ⟨true, true, some 5⟩ "u" TabState.start
        [("1", 1), ("2", 2), ("3", 3), ("4", 4), ("5", 5), ("6", 6)]).2.map
      (fun o => o.result) =
      List.replicate 5 .accepted ++ [.safetyFuse 5] ∧
    ((admitSeq ⟨true, true, some 5⟩ "u" TabState.start
        [("1", 1), ("2", 2), ("3", 3), ("4", 4), ("5", 5), ("6", 6)]).2.countP
      (fun o => o.jobEnqueued)) = 5 := by
  have h := safety_fuse_spec
  have hseq := h.2.2.2 ⟨true, true, some 5⟩ "u"
    [("1", 1), ("2", 2), ("3", 3), ("4", 4), ("5", 5), ("6", 6)]
    (by decide) rfl rfl (by decide) (by decide) (by decide)
  exact ⟨h.1 true true, h.2.1 true true 2, hseq.1, hseq.2.1⟩

theorem seenLookup_prune (now ttl : Nat) (id : String) (ts : Nat) :
    ∀ (seen : List (String × Nat)), seenLookup seen id = some ts → now - ts ≤ ttl →
      seenLookup (pruneSeen now ttl seen) id = some ts := by
  intro seen
  induction seen with
  | nil => intro h; simp [seenLookup] at h
  | cons p rest ih =>
    intro h hin
    by_cases hb : p.1 = id
    · have hts : p.2 = ts := by
        simp [seenLookup, List.find?_cons, hb] at h
        exact h
      have hkeep : (now - p.2 ≤ ttl) := by rw [hts]; exact hin
      simp only [pruneSeen, List.filter_cons, hkeep, decide_True, if_true,
        decide_eq_true_eq, ite_true]
      simp [seenLookup, List.find?_cons, hb, hts]
    · have htail : seenLookup rest id = some ts := by
        simp only [seenLookup, List.find?_cons] at h ⊢
        rw [show (p.1 == id) = false by simp [hb]] at h
        exact h
      have hres := ih htail hin
      simp only [pruneSeen, List.filter_cons]
      by_cases hkeep : now - p.2 ≤ ttl
      · simp only [hkeep, decide_True, if_true, ite_true]
        simp only [seenLookup, List.find?_cons, show (p.1 == id) = false by simp [hb]]
        exact hres
      · simp only [hkeep, decide_False, if_false, ite_false]
        exact hres

theorem seenLookup_append_fresh (l : List (String × Nat)) (id : String) (ts : Nat)
    (hfresh : ∀ p ∈ l, p.1 ≠ id) : seenLookup (l ++ [(id, ts)]) id = some ts := by
  induction l with
  | nil => simp [seenLookup]
  | cons p rest ih =>
    have hp : p.1 ≠ id := hfresh p (List.mem_cons_self _ _)
    simp only [List.cons_append, seenLookup, List.find?_cons,
      show (p.1 == id) = false by simp [hp]]
    exact ih (fun q hq => hfresh q (List.mem_cons_of_mem _ hq))

/-- Duplicate rejection: an admission whose id has a fresh (younger than
TTL, nonzero) seen-registry entry is rejected as `duplicate`, chains no
job, and changes nothing except the registry pruning and the
`lastAt` refresh. -/
theorem admit_duplicate (cfg : AutoCfg) (s : TabState) (now : Nat) (id u : String)
    (ts : Nat) (hid : id ≠ "") (hu : u ≠ "")
    (hcfg : cfg.wpAutoAnalyzeOnUpload = true) (hc : s.cancelFlag = false)
    (hlook : seenLookup (pruneSeen now 300000 s.seen) id = some ts)
    (hts : ts ≠ 0) (httl : now - ts ≤ 300000) :
    (handleAutoProcessAttachment cfg true s now id u).result = .duplicate ∧
    (handleAutoProcessAttachment cfg true s now id u).jobEnqueued = false ∧
    (statsView (handleAutoProcessAttachment cfg true s now id u).state).queued =
      (statsView s).queued ∧
    (statsView (handleAutoProcessAttachment cfg true s now id u).state).done =
      (statsView s).done ∧
    (handleAutoProcessAttachment cfg true s now id u).state.pendingIds = s.pendingIds ∧
    (handleAutoProcessAttachment cfg true s now id u).state.cancelFlag = false ∧
    (handleAutoProcessAttachment cfg true s now id u).state.seen =
      pruneSeen now 300000 s.seen ∧
    (handleAutoProcessAttachment cfg true s now id u).events = [] := by
  have hdup : (wasRecentlyAutoProcessed now s.seen id).2 = true := by
    unfold wasRecentlyAutoProcessed
    simp [hid, hlook, hts, httl]
  have hfst : (wasRecentlyAutoProcessed now s.seen id).1 = pruneSeen now 300000 s.seen := by
    unfold wasRecentlyAutoProcessed
    simp only [hid, ite_false]
    cases h : seenLookup (pruneSeen now 300000 s.seen) id <;> simp [h]
  unfold handleAutoProcessAttachment
  simp only [hid, hu, hcfg, hc, hdup, hfst, Bool.false_eq_true, false_and, or_self,
    not_true, ite_false, if_false, false_or, or_false, and_false, true_and, and_true,
    not_false_eq_true, if_true, ite_true, reduceIte]
  simp [statsView, getAutoUploadStats_queued, getAutoUploadStats_done]

/-- A run of duplicate admissions of the same id, all within the TTL of
the live seen entry, is rejected wholesale with no job enqueued. -/
theorem admit_dup_seq (cfg : AutoCfg) (u : String) (id : String) (t0 : Nat)
    (hu : u ≠ "") (hid : id ≠ "") (hcfg : cfg.wpAutoAnalyzeOnUpload = true)
    (hts : t0 ≠ 0) :
    ∀ (times : List Nat) (s : TabState),
      s.cancelFlag = false →
      seenLookup s.seen id = some t0 →
      (∀ t ∈ times, t - t0 ≤ 300000) →
      (admitSeq cfg u s (times.map (fun t => (id, t)))).2.map (fun o => o.result) =
        List.replicate times.length .duplicate ∧
      ((admitSeq cfg u s (times.map (fun t => (id, t)))).2.countP
        (fun o => o.jobEnqueued)) = 0 ∧
      (statsView (admitSeq cfg u s (times.map (fun t => (id, t)))).1).queued =
        (statsView s).queued := by
  intro times
  induction times with
  | nil => intro s _ _ _; simp [admitSeq]
  | cons t rest ih =>
    intro s hc hlook httl
    have httl0 : t - t0 ≤ 300000 := httl t (List.mem_cons_self _ _)
    have hlookp : seenLookup (pruneSeen t 300000 s.seen) id = some t0 :=
      seenLookup_prune t 300000 id t0 s.seen hlook httl0
    have hstep := admit_duplicate cfg s t id u t0 hid hu hcfg hc hlookp hts httl0
    have hrest := ih (handleAutoProcessAttachment cfg true s t id u).state
      hstep.2.2.2.2.2.1
      (by rw [hstep.2.2.2.2.2.2.1]; exact hlookp)
      (fun t2 ht2 => httl t2 (List.mem_cons_of_mem _ ht2))
    simp only [List.map_cons, admitSeq, List.length_cons, List.countP_cons]
    refine ⟨?_, ?_, ?_⟩
    · rw [hstep.1, hrest.1, List.replicate_succ]
    · rw [hrest.2.1]
      simp [hstep.2.1]
    · rw [hrest.2.2, hstep.2.2.1]

/-- C3: admission is idempotent under duplicate triggers within the
dedup TTL.  A single admission whose id holds a live (nonzero, younger
than 5 minutes) seen-registry entry is rejected with reason `duplicate`
and enqueues no job; and for a sequence starting with one successful
admission of `(id, t0)` followed by repeats of the same id at times
within the TTL of `t0`, exactly the first admission is accepted and
exactly one job is enqueued for the whole sequence. -/
theorem dedup_spec :
    (∀ (cfg : AutoCfg) (s : TabState) (now : Nat) (id u : String) (ts : Nat),
      id ≠ "" → u ≠ "" → cfg.wpAutoAnalyzeOnUpload = true → s.cancelFlag = false →
      seenLookup (pruneSeen now 300000 s.seen) id = some ts → ts ≠ 0 →
      now - ts ≤ 300000 →
      (handleAutoProcessAttachment cfg true s now id u).result = .duplicate ∧
      (handleAutoProcessAttachment cfg true s now id u).jobEnqueued = false ∧
      (statsView (handleAutoProcessAttachment cfg true s now id u).state).queued =
        (statsView s).queued ∧
      (handleAutoProcessAttachment cfg true s now id u).state.pendingIds =
        s.pendingIds) ∧
    (∀ (cfg : AutoCfg) (u : String) (s : TabState) (id : String) (t0 : Nat)
      (times : List Nat),
      id ≠ "" → u ≠ "" → cfg.wpAutoAnalyzeOnUpload = true → s.cancelFlag = false →
      (∀ p ∈ s.seen, p.1 ≠ id) →
      (cfg.autoUploadSafetyFuseEnabled = false ∨ (statsView s).queued < effFuseMax cfg) →
      t0 ≠ 0 → (∀ t ∈ times, t - t0 ≤ 300000) →
      (admitSeq cfg u s ((id, t0) :: times.map (fun t => (id, t)))).2.map
        (fun o => o.result) = .accepted :: List.replicate times.length .duplicate ∧
      ((admitSeq cfg u s ((id, t0) :: times.map (fun t => (id, t)))).2.countP
        (fun o => o.jobEnqueued)) = 1) := by
  constructor
  · intro cfg s now id u ts hid hu hcfg hc hlook hts httl
    have h := admit_duplicate cfg s now id u ts hid hu hcfg hc hlook hts httl
    exact ⟨h.1, h.2.1, h.2.2.1, h.2.2.2.2.1⟩
  · intro cfg u s id t0 times hid hu hcfg hc hfresh hfuse hts httl
    have hacc := admit_accept cfg s t0 id u hid hu hcfg hc hfresh hfuse
    obtain ⟨hres, henq, hc1, _hp1, _hq1, _hd1, hseen1, _hpend1, _hev1⟩ := hacc
    have hlook1 : seenLookup (handleAutoProcessAttachment cfg true s t0 id u).state.seen
        id = some t0 := by
      rw [hseen1]
      exact seenLookup_append_fresh _ id t0
        (fun p hp => hfresh p (pruneSeen_subset t0 300000 s.seen p hp))
    have hdups := admit_dup_seq cfg u id t0 hu hid hcfg hts times
      (handleAutoProcessAttachment cfg true s t0 id u).state hc1 hlook1 httl
    simp only [admitSeq, List.map_cons, List.countP_cons]
    refine ⟨?_, ?_⟩
    · rw [hres, hdups.1]
    · rw [hdups.2.1]
      simp [henq]

/-- Witness for C3 at concrete inputs: admitting attachment "7" into a
fresh tab at t=100 and again at t=200 and t=90100 (both within the
5-minute TTL) accepts only the first admission and enqueues exactly one
job. -/
theorem dedup_spec_witness :
    (admitSeq cfgOn "u" TabState.start [("7", 100), ("7", 200), ("7", 90100)]).2.map
      (fun o => o.result) =
      .accepted :: List.replicate 2 .duplicate ∧
    ((admitSeq cfgOn "u" TabState.start [("7", 100), ("7", 200), ("7", 90100)]).2.countP
      (fun o => o.jobEnqueued)) = 1 := by
  have h := dedup_spec.2 cfgOn "u" TabState.start "7" 100 [200, 90100]
    (by decide) (by decide) rfl rfl
    (by intro p hp; simp [TabState.start] at hp)
    (by right; simp [TabState.start, statsView, cfgOn, effFuseMax])
    (by decide) (by decide)
  exact h

/-- C4: cancel does drain the queue, but the "one final `cancelled`
event" part of the claim is a bug in the code, evaluated here at the
claim's own scenario.  Cancelling a tab with `queued = 5, done = 2`
emits `cancel_request`, and the three pending jobs observing the flag
back to back settle as exactly 3 `cancelled_item` events with `done`
reaching `queued = 5` — but each handler's drain check resumes only
after its awaited `cancelled_item` send, so all three resume seeing
`done == queued` on the shared stats object and the program emits three
`cancelled` events instead of the single final one the claim requires. -/
theorem cancel_drains_code_bug :
    (handleAutoUploadCancel
      { stats := some ⟨5, 2, 2, 0, 0, 0⟩, cancelFlag := false, pausedFlag := false,
        pendingIds := ["3", "4", "5"], seen := [] } 50).2.map (fun e => e.phase) =
      ["cancel_request"] ∧
    countPhase (runCancelSettlementsConcurrent
      (handleAutoUploadCancel
        { stats := some ⟨5, 2, 2, 0, 0, 0⟩, cancelFlag := false, pausedFlag := false,
          pendingIds := ["3", "4", "5"], seen := [] } 50).1
      [("3", 60), ("4", 70), ("5", 80)]).2 "cancelled_item" = 3 ∧
    countPhase (runCancelSettlementsConcurrent
      (handleAutoUploadCancel
        { stats := some ⟨5, 2, 2, 0, 0, 0⟩, cancelFlag := false, pausedFlag := false,
          pendingIds := ["3", "4", "5"], seen := [] } 50).1
      [("3", 60), ("4", 70), ("5", 80)]).2 "cancelled" = 3 ∧
    (3 : Nat) ≠ 1 ∧
    (runCancelSettlementsConcurrent
      (handleAutoUploadCancel
        { stats := some ⟨5, 2, 2, 0, 0, 0⟩, cancelFlag := false, pausedFlag := false,
          pendingIds := ["3", "4", "5"], seen := [] } 50).1
      [("3", 60), ("4", 70), ("5", 80)]).1.stats = some ⟨5, 5, 2, 0, 0, 80⟩ := by
  decide

theorem runAutoUploadJob_flags (s : TabState) (j : AutoJob)
    (hc : s.cancelFlag = false) (hp : s.pausedFlag = false) :
    (runAutoUploadJob s j).1.cancelFlag = false ∧
    (runAutoUploadJob s j).1.pausedFlag = false := by
  simp only [runAutoUploadJob, hc, hp, Bool.false_eq_true, if_false, ite_false]
  by_cases ha : j.analysisOk
  · simp only [ha, not_true, if_false, ite_false, not_false_eq_true, ite_true, if_true]
    by_cases hap : (autoApplyAttachmentWithRetry j.applyRes 12).ok
    · simp only [hap, if_true, ite_true]
      exact ⟨(settleSuccessJob_cancelFlag s j.attachmentId j.runAt).trans hc,
        settleSuccessJob_pausedFlag s j.attachmentId j.runAt hp⟩
    · simp only [hap, Bool.false_eq_true, if_false, ite_false]
      exact ⟨(settleErrorJob_cancelFlag s j.attachmentId j.runAt).trans hc,
        settleErrorJob_pausedFlag s j.attachmentId j.runAt hp⟩
  · simp only [ha, Bool.false_eq_true, not_false_eq_true, if_true, ite_true]
    exact ⟨(settleErrorJob_cancelFlag s j.attachmentId j.runAt).trans hc,
      settleErrorJob_pausedFlag s j.attachmentId j.runAt hp⟩

theorem runAutoUploadChain_flags :
    ∀ (jobs : List AutoJob) (s : TabState),
      s.cancelFlag = false → s.pausedFlag = false →
      (runAutoUploadChain s jobs).1.cancelFlag = false ∧
      (runAutoUploadChain s jobs).1.pausedFlag = false := by
  intro jobs
  induction jobs with
  | nil => intro s hc hp; exact ⟨hc, hp⟩
  | cons j rest ih =>
    intro s hc hp
    have hj := runAutoUploadJob_flags s j hc hp
    simp only [runAutoUploadChain]
    exact ih (runAutoUploadJob s j).1 hj.1 hj.2

/-- An uncancelled, unpaused job body emits one `processing` event and
exactly one settlement event whose phase is fixed by the job's own
environment, and never a cancellation event. -/
theorem runAutoUploadJob_segment (s : TabState) (j : AutoJob)
    (hc : s.cancelFlag = false) (hp : s.pausedFlag = false) :
    countPhase (runAutoUploadJob s j).2 "processing" = 1 ∧
    countPhase (runAutoUploadJob s j).2 (jobOutcomePhase j) = 1 ∧
    countPhase (runAutoUploadJob s j).2 "cancelled_item" = 0 ∧
    countPhase (runAutoUploadJob s j).2 "cancelled" = 0 := by
  simp only [runAutoUploadJob, hc, hp, Bool.false_eq_true, if_false, ite_false]
  by_cases ha : j.analysisOk
  · by_cases hap : (autoApplyAttachmentWithRetry j.applyRes 12).ok
    · simp only [ha, hap, not_true, if_false, ite_false, not_false_eq_true, ite_true,
        if_true, jobOutcomePhase, Bool.true_and]
      have he := settleSuccessJob_events s j.attachmentId j.runAt
      simp only [countPhase, List.countP_cons, sendAutoUploadProgress] at he ⊢
      simp [he.1, he.2.1, he.2.2.1, he.2.2.2.1, he.2.2.2.2]
    · simp only [ha, hap, not_true, if_false, ite_false, not_false_eq_true, ite_true,
        if_true, jobOutcomePhase, Bool.true_and, Bool.false_eq_true]
      have he := settleErrorJob_events s j.attachmentId j.runAt
      simp only [countPhase, List.countP_cons, sendAutoUploadProgress] at he ⊢
      simp [he.1, he.2.1, he.2.2.1, he.2.2.2.1, he.2.2.2.2]
  · simp only [ha, Bool.false_eq_true, not_false_eq_true, if_true, ite_true,
      jobOutcomePhase, Bool.false_and]
    have he := settleErrorJob_events s j.attachmentId j.runAt
    simp only [countPhase, List.countP_cons, sendAutoUploadProgress] at he ⊢
    simp [he.1, he.2.1, he.2.2.1, he.2.2.2.1, he.2.2.2.2]

/-- C6: per-item failure is contained.  When the analysis call or the
Field Applier fails for one attachment (not a cancellation), the
coordinator increments `done` and `error` and emits `error_item` for
that attachment; the tab's chain continues to the remaining jobs, and
every later job still runs its body (`processing` emitted) with its
settlement phase determined solely by its own environment — never a
cancellation, never skipped. -/
theorem per_item_failure_contained (s : TabState) (a : AutoJob) (rest : List AutoJob)
    (hc : s.cancelFlag = false) (hp : s.pausedFlag = false)
    (hfail : a.analysisOk = false ∨ (autoApplyAttachmentWithRetry a.applyRes 12).ok = false) :
    (∃ st, (runAutoUploadJob s a).1.stats = some st ∧
      st.done = (statsView s).done + 1 ∧ st.error = (statsView s).error + 1) ∧
    countPhase (runAutoUploadJob s a).2 "error_item" = 1 ∧
    (runAutoUploadChain s (a :: rest)).2 =
      (runAutoUploadJob s a).2 ++ (runAutoUploadChain (runAutoUploadJob s a).1 rest).2 ∧
    (∀ pre b post, rest = pre ++ b :: post →
      countPhase (runAutoUploadJob
        (runAutoUploadChain (runAutoUploadJob s a).1 pre).1 b).2 "processing" = 1 ∧
      countPhase (runAutoUploadJob
        (runAutoUploadChain (runAutoUploadJob s a).1 pre).1 b).2 (jobOutcomePhase b) = 1 ∧
      countPhase (runAutoUploadJob
        (runAutoUploadChain (runAutoUploadJob s a).1 pre).1 b).2 "cancelled_item" = 0) := by
  have hbody : runAutoUploadJob s a =
      ((settleErrorJob s a.attachmentId a.runAt).1,
        sendAutoUploadProgress s.pendingIds s.pausedFlag "processing" a.attachmentId
          (statsView s) :: (settleErrorJob s a.attachmentId a.runAt).2) := by
    rcases hfail with h | h
    · simp [runAutoUploadJob, hc, hp, h]
    · by_cases ha : a.analysisOk
      · simp [runAutoUploadJob, hc, hp, ha, h]
      · simp [runAutoUploadJob, hc, hp, ha]
  refine ⟨⟨settleStats s a.runAt 0 1, ?_, ?_, ?_⟩, ?_, ?_, ?_⟩
  · rw [hbody]; exact settleErrorJob_stats s a.attachmentId a.runAt
  · exact (settleStats_fields s a.runAt 0 1).2.1
  · exact (settleStats_fields s a.runAt 0 1).2.2.2
  · rw [hbody]
    have he := (settleErrorJob_events s a.attachmentId a.runAt).1
    simp only [countPhase, List.countP_cons, sendAutoUploadProgress] at he ⊢
    simp [he]
  · simp [runAutoUploadChain]
  · intro pre b post _hsplit
    have hflags := runAutoUploadJob_flags s a hc hp
    have hchain := runAutoUploadChain_flags pre (runAutoUploadJob s a).1 hflags.1 hflags.2
    have hseg := runAutoUploadJob_segment (runAutoUploadChain (runAutoUploadJob s a).1 pre).1
      b hchain.1 hchain.2
    exact ⟨hseg.1, hseg.2.1, hseg.2.2.1⟩

/-- Witness for C6: in a two-job chain where the first job's Field
Applier never succeeds, the first settles as `error_item` and the second
still runs and settles as `done_item`. -/
theorem per_item_failure_contained_witness :
    countPhase (runAutoUploadJob
      { stats := some ⟨2, 0, 0, 0, 0, 0⟩, cancelFlag := false, pausedFlag := false,
        pendingIds := ["1", "2"], seen := [] }
      { attachmentId := "1", runAt := 10, analysisOk := true,
        applyRes := fun _ => .err }).2 "error_item" = 1 ∧
    countPhase (runAutoUploadJob
      (runAutoUploadChain
        (runAutoUploadJob
          { stats := some ⟨2, 0, 0, 0, 0, 0⟩, cancelFlag := false, pausedFlag := false,
            pendingIds := ["1", "2"], seen := [] }
          { attachmentId := "1", runAt := 10, analysisOk := true,
            applyRes := fun _ => .err }).1 []).1
      { attachmentId := "2", runAt := 20, analysisOk := true,
        applyRes := fun _ => .resp ⟨true, true, true⟩ }).2 "done_item" = 1 := by
  have h := per_item_failure_contained
    { stats := some ⟨2, 0, 0, 0, 0, 0⟩, cancelFlag := false, pausedFlag := false,
      pendingIds := ["1", "2"], seen := [] }
    { attachmentId := "1", runAt := 10, analysisOk := true, applyRes := fun _ => .err }
    [{ attachmentId := "2", runAt := 20, analysisOk := true,
       applyRes := fun _ => .resp ⟨true, true, true⟩ }]
    rfl rfl (Or.inr (by decide))
  refine ⟨h.2.1, ?_⟩
  have hb := h.2.2.2 []
    { attachmentId := "2", runAt := 20, analysisOk := true,
      applyRes := fun _ => .resp ⟨true, true, true⟩ } [] rfl
  have : jobOutcomePhase
      { attachmentId := "2", runAt := 20, analysisOk := true,
        applyRes := fun _ => .resp ⟨true, true, true⟩ } = "done_item" := by decide
  rw [this] at hb
  exact hb.2.1

theorem seenLookup_none_iff (l : List (String × Nat)) (id : String) :
    seenLookup l id = none ↔ ∀ p ∈ l, p.1 ≠ id := by
  unfold seenLookup
  constructor
  · intro h p hp
    cases hf : l.find? (fun p => p.1 == id) with
    | none =>
      have := List.find?_eq_none.mp hf p hp
      simpa using this
    | some q => rw [hf] at h; simp at h
  · intro h
    have hf : l.find? (fun p => p.1 == id) = none := by
      rw [List.find?_eq_none]
      intro p hp
      simp [h p hp]
    rw [hf]
    rfl

theorem seenLookup_unmark (l : List (String × Nat)) (id : String) (hid : id ≠ "") :
    seenLookup (unmarkAutoProcessed l id) id = none := by
  unfold unmarkAutoProcessed
  simp only [hid, ite_false, if_false]
  rw [seenLookup_none_iff]
  intro p hp
  have := List.mem_filter.mp hp
  simpa using this.2

theorem settleErrorJob_seen (s : TabState) (id : String) (now : Nat) :
    (settleErrorJob s id now).1.seen = unmarkAutoProcessed s.seen id := by
  simp only [settleErrorJob]
  split <;> rfl

theorem settleCancelledJob_seen (s : TabState) (id : String) (now : Nat) :
    (settleCancelledJob s id now).1.seen = unmarkAutoProcessed s.seen id := by
  simp only [settleCancelledJob]
  split <;> rfl

theorem settleSuccessJob_seen (s : TabState) (id : String) (now : Nat) :
    (settleSuccessJob s id now).1.seen = s.seen := by
  simp only [settleSuccessJob]
  split <;> rfl

theorem dequeue_not_mem (l : List String) (id : String) (hid : id ≠ "")
    (hnd : l.Nodup) : id ∉ dequeueAutoPendingId l id := by
  unfold dequeueAutoPendingId
  simp only [hid, ite_false, if_false]
  exact hnd.not_mem_erase

theorem settleErrorJob_pending (s : TabState) (id : String) (now : Nat)
    (hid : id ≠ "") (hnd : s.pendingIds.Nodup) :
    id ∉ (settleErrorJob s id now).1.pendingIds := by
  simp only [settleErrorJob]
  split
  · simp
  · exact dequeue_not_mem s.pendingIds id hid hnd

theorem settleCancelledJob_pending (s : TabState) (id : String) (now : Nat)
    (hid : id ≠ "") (hnd : s.pendingIds.Nodup) :
    id ∉ (settleCancelledJob s id now).1.pendingIds := by
  simp only [settleCancelledJob]
  split
  · simp
  · exact dequeue_not_mem s.pendingIds id hid hnd

theorem seenLookup_none_prune (now ttl : Nat) (l : List (String × Nat)) (id : String)
    (h : seenLookup l id = none) : seenLookup (pruneSeen now ttl l) id = none := by
  rw [seenLookup_none_iff] at h ⊢
  intro p hp
  exact h p (pruneSeen_subset now ttl l p hp)

/-- C9: a job that settles in cancellation or error removes its
attachment id from the seen registry and from the pending list, so a
subsequent admission of the same id is not rejected as a duplicate; a
successful settlement keeps the registry entry, so within the 5-minute
TTL a re-admission of a successfully completed item is still rejected
as `duplicate`. -/
theorem unmark_on_failure_spec :
    (∀ (s : TabState) (id : String) (now : Nat), id ≠ "" → s.pendingIds.Nodup →
      seenLookup (settleErrorJob s id now).1.seen id = none ∧
      id ∉ (settleErrorJob s id now).1.pendingIds ∧
      seenLookup (settleCancelledJob s id now).1.seen id = none ∧
      id ∉ (settleCancelledJob s id now).1.pendingIds) ∧
    (∀ (cfg : AutoCfg) (s : TabState) (now : Nat) (id u : String),
      id ≠ "" → u ≠ "" → seenLookup s.seen id = none →
      (handleAutoProcessAttachment cfg true s now id u).result ≠ .duplicate) ∧
    (∀ (s : TabState) (id : String) (now : Nat),
      (settleSuccessJob s id now).1.seen = s.seen) ∧
    (∀ (cfg : AutoCfg) (s : TabState) (t0 t : Nat) (id u : String),
      id ≠ "" → u ≠ "" → cfg.wpAutoAnalyzeOnUpload = true → s.cancelFlag = false →
      seenLookup s.seen id = some t0 → t0 ≠ 0 → t - t0 ≤ 300000 →
      (handleAutoProcessAttachment cfg true s t id u).result = .duplicate) := by
  refine ⟨?_, ?_, ?_, ?_⟩
  · intro s id now hid hnd
    refine ⟨?_, settleErrorJob_pending s id now hid hnd, ?_,
      settleCancelledJob_pending s id now hid hnd⟩
    · rw [settleErrorJob_seen]
      exact seenLookup_unmark s.seen id hid
    · rw [settleCancelledJob_seen]
      exact seenLookup_unmark s.seen id hid
  · intro cfg s now id u hid hu hnone
    have hfresh := (seenLookup_none_iff s.seen id).mp hnone
    have hdup : (wasRecentlyAutoProcessed now s.seen id).2 = false :=
      wasRecently_fresh now s.seen id 300000 hfresh
    simp only [handleAutoProcessAttachment]
    split_ifs <;> simp_all
  · intro s id now
    exact settleSuccessJob_seen s id now
  · intro cfg s t0 t id u hid hu hcfg hc hlook hts httl
    have hlookp := seenLookup_prune t 300000 id t0 s.seen hlook httl
    exact (admit_duplicate cfg s t id u t0 hid hu hcfg hc hlookp hts httl).1

/-- Witness for C9 at concrete inputs: after attachment "7" (seen at
t=100) settles in error at t=150, its seen entry and pending entry are
gone and a fresh admission at t=200 is not a duplicate; had it settled
successfully, the entry would remain and the t=200 admission would be
rejected as a duplicate. -/
theorem unmark_on_failure_spec_witness :
    seenLookup (settleErrorJob
      { stats := some ⟨1, 0, 0, 0, 0, 0⟩, cancelFlag := false, pausedFlag := false,
        pendingIds := ["7"], seen := [("7", 100)] } "7" 150).1.seen "7" = none ∧
    "7" ∉ (settleErrorJob
      { stats := some ⟨1, 0, 0, 0, 0, 0⟩, cancelFlag := false, pausedFlag := false,
        pendingIds := ["7"], seen := [("7", 100)] } "7" 150).1.pendingIds ∧
    (handleAutoProcessAttachment cfgOn true (settleErrorJob
      { stats := some ⟨1, 0, 0, 0, 0, 0⟩, cancelFlag := false, pausedFlag := false,
        pendingIds := ["7"], seen := [("7", 100)] } "7" 150).1 200 "7" "u").result ≠
      .duplicate ∧
    (settleSuccessJob
      { stats := some ⟨1, 0, 0, 0, 0, 0⟩, cancelFlag := false, pausedFlag := false,
        pendingIds := ["7"], seen := [("7", 100)] } "7" 150).1.seen = [("7", 100)] ∧
    (handleAutoProcessAttachment cfgOn true
      { stats := some ⟨1, 1, 1, 0, 0, 150⟩, cancelFlag := false, pausedFlag := false,
        pendingIds := [], seen := [("7", 100)] } 200 "7" "u").result = .duplicate := by
  have h1 := unmark_on_failure_spec.1
    { stats := some ⟨1, 0, 0, 0, 0, 0⟩, cancelFlag := false, pausedFlag := false,
      pendingIds := ["7"], seen := [("7", 100)] } "7" 150 (by decide) (by decide)
  have h2 := unmark_on_failure_spec.2.1 cfgOn (settleErrorJob
    { stats := some ⟨1, 0, 0, 0, 0, 0⟩, cancelFlag := false, pausedFlag := false,
      pendingIds := ["7"], seen := [("7", 100)] } "7" 150).1 200 "7" "u"
    (by decide) (by decide) h1.1
  have h3 := unmark_on_failure_spec.2.2.1
    { stats := some ⟨1, 0, 0, 0, 0, 0⟩, cancelFlag := false, pausedFlag := false,
      pendingIds := ["7"], seen := [("7", 100)] } "7" 150
  have h4 := unmark_on_failure_spec.2.2.2 cfgOn
    { stats := some ⟨1, 1, 1, 0, 0, 150⟩, cancelFlag := false, pausedFlag := false,
      pendingIds := [], seen := [("7", 100)] } 100 200 "7" "u"
    (by decide) (by decide) rfl rfl (by decide) (by decide) (by decide)
  exact ⟨h1.1, h1.2.1, h2, h3, h4⟩

/-- A well-formed admission never touches `done`, and bumps `queued` by
one exactly when it chains a job. -/
theorem admit_counters (cfg : AutoCfg) (isWp : Bool) (s : TabState) (now : Nat)
    (id u : String) (hid : id ≠ "") (hu : u ≠ "") :
    (statsView (handleAutoProcessAttachment cfg isWp s now id u).state).queued =
      (statsView s).queued +
        (if (handleAutoProcessAttachment cfg isWp s now id u).jobEnqueued then 1 else 0) ∧
    (statsView (handleAutoProcessAttachment cfg isWp s now id u).state).done =
      (statsView s).done := by
  simp only [handleAutoProcessAttachment]
  rw [if_neg (by simp [hid, hu])]
  split_ifs <;>
    first
      | contradiction
      | simp [statsView, getAutoUploadStats_queued, getAutoUploadStats_done]

theorem handleAutoUploadCancel_stats (s : TabState) (now : Nat) :
    (handleAutoUploadCancel s now).1.stats = some (getAutoUploadStats s.stats now) := by
  simp only [handleAutoUploadCancel]
  split <;> rfl

/-- One step of the event machine preserves `done + pending ≤ queued`. -/
theorem autoStep_inv (cfg : AutoCfg) (sys : SysState) (e : AutoEvent)
    (hwf : wfAutoEvent e = true)
    (hI : (statsView sys.tab).done + sys.chainJobs.length ≤ (statsView sys.tab).queued) :
    (statsView (autoStep cfg sys e).tab).done + (autoStep cfg sys e).chainJobs.length ≤
      (statsView (autoStep cfg sys e).tab).queued := by
  cases e with
  | admitEv now id url =>
    simp only [wfAutoEvent, Bool.and_eq_true, Bool.not_eq_true', beq_eq_false_iff_ne] at hwf
    have hcnt := admit_counters cfg true sys.tab now id url hwf.1 hwf.2
    simp only [autoStep, List.length_append]
    rw [hcnt.1, hcnt.2]
    by_cases he : (handleAutoProcessAttachment cfg true sys.tab now id url).jobEnqueued <;>
      simp [he] <;> omega
  | settleOk now =>
    simp only [autoStep]
    cases h : sys.chainJobs with
    | nil => simp only [h, List.length_nil] at hI ⊢; exact hI
    | cons id rest =>
      rw [h, List.length_cons] at hI
      have hst := settleSuccessJob_stats sys.tab id now
      have hf := settleStats_fields sys.tab now 1 0
      simp only [statsView, hst, Option.getD_some]
      omega
  | settleErr now =>
    simp only [autoStep]
    cases h : sys.chainJobs with
    | nil => simp only [h, List.length_nil] at hI ⊢; exact hI
    | cons id rest =>
      rw [h, List.length_cons] at hI
      have hst := settleErrorJob_stats sys.tab id now
      have hf := settleStats_fields sys.tab now 0 1
      simp only [statsView, hst, Option.getD_some]
      omega
  | settleCancel now =>
    simp only [autoStep]
    cases h : sys.chainJobs with
    | nil => simp only [h, List.length_nil] at hI ⊢; exact hI
    | cons id rest =>
      rw [h, List.length_cons] at hI
      have hst := settleCancelledJob_stats sys.tab id now
      have hf := settleStats_fields sys.tab now 0 0
      simp only [statsView, hst, Option.getD_some]
      omega
  | cancelReq now =>
    simp only [autoStep]
    have hst := handleAutoUploadCancel_stats sys.tab now
    simp only [statsView, hst, Option.getD_some]
    rw [getAutoUploadStats_queued, getAutoUploadStats_done]
    exact hI
  | pauseReq now =>
    simp only [autoStep, handleAutoUploadPause, statsView, Option.getD_some]
    rw [getAutoUploadStats_queued, getAutoUploadStats_done]
    exact hI
  | resumeReq now =>
    simp only [autoStep, handleAutoUploadResume, statsView, Option.getD_some]
    rw [getAutoUploadStats_queued, getAutoUploadStats_done]
    exact hI

theorem runAutoEvents_inv (cfg : AutoCfg) :
    ∀ (evs : List AutoEvent) (sys : SysState),
      (∀ e ∈ evs, wfAutoEvent e = true) →
      (statsView sys.tab).done + sys.chainJobs.length ≤ (statsView sys.tab).queued →
      (statsView (runAutoEvents cfg sys evs).tab).done +
        (runAutoEvents cfg sys evs).chainJobs.length ≤
        (statsView (runAutoEvents cfg sys evs).tab).queued := by
  intro evs
  induction evs with
  | nil => intro sys _ hI; exact hI
  | cons e rest ih =>
    intro sys hwf hI
    exact ih (autoStep cfg sys e)
      (fun e2 he2 => hwf e2 (List.mem_cons_of_mem _ he2))
      (autoStep_inv cfg sys e (hwf e (List.mem_cons_self _ _)) hI)

/-- C5 counterexample: the claim "done <= queued in every reachable
state, done incremented only per settled job" fails on the code.  A
`MACA_AUTO_PROCESS_ATTACHMENT` message with an empty attachment id
(`attachmentId = ""`, image URL present) thrown out by the handler's
input validation lands in the generic `catch`, which increments `done`
and `error` on the freshly created stats entry although no job was ever
queued: from an idle tab the stats entry becomes
`{queued: 0, done: 1, error: 1}`, so `done > queued`. -/
theorem done_le_queued_counterexample :
    (handleAutoProcessAttachment cfgOn true TabState.start 1000 "" "https-img").state.stats =
      some ⟨0, 1, 0, 1, 1000, 1000⟩ ∧
    (0 : Nat) < 1 ∧
    (handleAutoProcessAttachment cfgOn true TabState.start 1000 "" "https-img").result =
      .missingData ∧
    (handleAutoProcessAttachment cfgOn true TabState.start 1000 "" "https-img").jobEnqueued =
      false ∧
    countPhase (handleAutoProcessAttachment cfgOn true TabState.start 1000 "" "https-img").events
      "error_item" = 1 := by
  decide

/-- C5 (amended): for every state reachable from an idle tab through
well-formed admissions (nonempty attachment id and image URL), FIFO job
settlements and cancel/pause/resume commands — the idle-grace stats
reset firing only on a tab with no outstanding jobs, modelled by its
absence from the event alphabet — the tab's stats entry satisfies
`done ≤ queued`; an admission increments `queued` exactly once exactly
when it chains a job and never touches `done`, and each settlement
(success, error or cancellation) increments `done` exactly once and
never touches `queued`. -/
theorem done_le_queued_wellformed (cfg : AutoCfg) (evs : List AutoEvent)
    (hwf : ∀ e ∈ evs, wfAutoEvent e = true) :
    (∀ st, (runAutoEvents cfg sysStart evs).tab.stats = some st → st.done ≤ st.queued) ∧
    (∀ (isWp : Bool) (s : TabState) (now : Nat) (id u : String), id ≠ "" → u ≠ "" →
      (statsView (handleAutoProcessAttachment cfg isWp s now id u).state).queued =
        (statsView s).queued +
          (if (handleAutoProcessAttachment cfg isWp s now id u).jobEnqueued then 1 else 0) ∧
      (statsView (handleAutoProcessAttachment cfg isWp s now id u).state).done =
        (statsView s).done) ∧
    (∀ (s : TabState) (id : String) (now : Nat),
      (statsView (settleSuccessJob s id now).1).done = (statsView s).done + 1 ∧
      (statsView (settleErrorJob s id now).1).done = (statsView s).done + 1 ∧
      (statsView (settleCancelledJob s id now).1).done = (statsView s).done + 1 ∧
      (statsView (settleSuccessJob s id now).1).queued = (statsView s).queued ∧
      (statsView (settleErrorJob s id now).1).queued = (statsView s).queued ∧
      (statsView (settleCancelledJob s id now).1).queued = (statsView s).queued) := by
  refine ⟨?_, ?_, ?_⟩
  · intro st hst
    have hI := runAutoEvents_inv cfg evs sysStart hwf (by simp [sysStart, TabState.start, statsView])
    rw [show statsView (runAutoEvents cfg sysStart evs).tab = st by
      simp [statsView, hst]] at hI
    omega
  · intro isWp s now id u hid hu
    exact admit_counters cfg isWp s now id u hid hu
  · intro s id now
    have h1 := settleSuccessJob_stats s id now
    have h2 := settleErrorJob_stats s id now
    have h3 := settleCancelledJob_stats s id now
    have f1 := settleStats_fields s now 1 0
    have f2 := settleStats_fields s now 0 1
    have f3 := settleStats_fields s now 0 0
    have g1 : statsView (settleSuccessJob s id now).1 = settleStats s now 1 0 := by
      simp [statsView, h1]
    have g2 : statsView (settleErrorJob s id now).1 = settleStats s now 0 1 := by
      simp [statsView, h2]
    have g3 : statsView (settleCancelledJob s id now).1 = settleStats s now 0 0 := by
      simp [statsView, h3]
    refine ⟨?_, ?_, ?_, ?_, ?_, ?_⟩
    · rw [g1]; exact f1.2.1
    · rw [g2]; exact f2.2.1
    · rw [g3]; exact f3.2.1
    · rw [g1]; exact f1.1
    · rw [g2]; exact f2.1
    · rw [g3]; exact f3.1

/-- Witness for the amended C5: two accepted admissions followed by one
success and one error settlement leave the stats entry at
`{queued: 2, done: 2, ok: 1, error: 1}`, and the theorem yields
`done ≤ queued` there. -/
theorem done_le_queued_wellformed_witness :
    (runAutoEvents cfgOn sysStart
      [.admitEv 100 "1" "u", .admitEv 200 "2" "u", .settleOk 300,
       .settleErr 400]).tab.stats = some ⟨2, 2, 1, 1, 100, 400⟩ ∧
    (2 : Nat) ≤ 2 := by
  have h := done_le_queued_wellformed cfgOn
    [.admitEv 100 "1" "u", .admitEv 200 "2" "u", .settleOk 300, .settleErr 400]
    (by decide)
  refine ⟨by decide, ?_⟩
  exact h.1 ⟨2, 2, 1, 1, 100, 400⟩ (by decide)

end Maca
